import Mathlib

/-!
Verification development for the school_erp backend.

Shallow embedding of the core components named in the specification:
the RBAC permission resolver (`backend/modules/rbac/services.py`), the
tenant context resolver (`backend/core/tenant.py`), the session-creating
auth routes (`backend/modules/auth/routes.py`) and the finance ledger
engine (`backend/modules/finance/services/*.py`).

Conventions of the embedding:
- money amounts (`Decimal` in the source) are modelled as `ℚ`;
- dates are modelled as day numbers in `ℤ`;
- database rows are Lean structures, tables are lists of rows;
- the ambient tenant (`g.tenant_id` in Flask) is an `Option String`
  parameter threaded through every operation that reads it;
- fallible operations return `Except String _` mirroring the
  `{'success': False, 'error': ...}` dictionaries of the source.
-/

namespace SchoolErp

/-! ### String ordering (Python `sorted` on strings = code-point lexicographic) -/

/-- Lexicographic `≤` on character lists by code point, the order Python's
`sorted` uses for strings. -/
def lexLe : List Char → List Char → Bool
  | [], _ => true
  | _ :: _, [] => false
  | a :: as, b :: bs => if a < b then true else if b < a then false else lexLe as bs

/-- Code-point lexicographic `≤` on strings, as a `Prop`. -/
def strLeP (a b : String) : Prop := lexLe a.data b.data = true

instance : DecidableRel strLeP := fun a b => by
  unfold strLeP; infer_instance

theorem lexLe_refl (l : List Char) : lexLe l l = true := by
  induction l with
  | nil => rfl
  | cons a as ih => simp [lexLe, ih]

theorem lexLe_total (l₁ l₂ : List Char) : lexLe l₁ l₂ = true ∨ lexLe l₂ l₁ = true := by
  induction l₁ generalizing l₂ with
  | nil => left; rfl
  | cons a as ih =>
    cases l₂ with
    | nil => right; rfl
    | cons b bs =>
      rcases lt_trichotomy a b with h | h | h
      · left; simp [lexLe, h]
      · subst h
        rcases ih bs with h2 | h2
        · left; simp [lexLe, h2]
        · right; simp [lexLe, h2]
      · right; simp [lexLe, h]

theorem lexLe_trans {l₁ l₂ l₃ : List Char} (h₁ : lexLe l₁ l₂ = true)
    (h₂ : lexLe l₂ l₃ = true) : lexLe l₁ l₃ = true := by
  induction l₁ generalizing l₂ l₃ with
  | nil => rfl
  | cons a as ih =>
    cases l₂ with
    | nil => simp [lexLe] at h₁
    | cons b bs =>
      cases l₃ with
      | nil => simp [lexLe] at h₂
      | cons c cs =>
        rcases lt_trichotomy a b with hab | hab | hab
        · rcases lt_trichotomy b c with hbc | hbc | hbc
          · simp [lexLe, lt_trans hab hbc]
          · subst hbc; simp [lexLe, hab]
          · simp [lexLe, hbc, not_lt_of_gt hbc] at h₂
        · subst hab
          rcases lt_trichotomy a c with hbc | hbc | hbc
          · simp [lexLe, hbc]
          · subst hbc
            simp only [lexLe, lt_irrefl, if_false] at h₁ h₂ ⊢
            exact ih h₁ h₂
          · simp [lexLe, hbc, not_lt_of_gt hbc] at h₂
        · simp [lexLe, hab, not_lt_of_gt hab] at h₁

instance : IsTotal String strLeP :=
  ⟨fun a b => lexLe_total a.data b.data⟩

instance : IsTrans String strLeP :=
  ⟨fun _ _ _ h₁ h₂ => lexLe_trans h₁ h₂⟩

/-- Python's `sorted(list(set(xs)))`: remove duplicates, then sort ascending. -/
def sortedDedup (l : List String) : List String :=
  l.dedup.insertionSort strLeP

theorem sortedDedup_sorted (l : List String) : List.Sorted strLeP (sortedDedup l) :=
  List.sorted_insertionSort strLeP l.dedup

theorem sortedDedup_nodup (l : List String) : (sortedDedup l).Nodup :=
  ((List.perm_insertionSort strLeP l.dedup).nodup_iff).mpr (List.nodup_dedup l)

theorem mem_sortedDedup {p : String} {l : List String} : p ∈ sortedDedup l ↔ p ∈ l := by
  unfold sortedDedup
  rw [(List.perm_insertionSort strLeP l.dedup).mem_iff, List.mem_dedup]

/-! ### RBAC data model (`backend/modules/rbac/models.py`)

`Role`, `RolePermission` and `UserRole` are tenant-scoped tables;
`Permission` is global.  In the service layer, a role's permissions are
read through the `Role.permissions` relationship (the
`role_permissions` join), which we fold into the role row as the list
of permission names. -/

/-- A row of the `user_roles` junction table. -/
structure UserRoleRow where
  user_id : String
  role_id : String
  tenant_id : String
  deriving DecidableEq, Repr

/-- A row of the `roles` table, together with the permission names
reachable through the `Role.permissions` relationship. -/
structure RoleRow where
  id : String
  tenant_id : String
  perms : List String
  deriving DecidableEq, Repr

/-- The tables the RBAC resolver reads. -/
structure RbacDb where
  userRoles : List UserRoleRow
  roles : List RoleRow
  deriving DecidableEq, Repr

/-- The automatic tenant filter of `backend/core/database.py`
(`_tenant_scope_query`): when an ambient tenant is bound, every query on
a tenant-scoped table is AND-ed with `tenant_id = <ambient>`; with no
ambient tenant the filter is skipped. -/
def tenantScope (amb : Option String) (rowTenant : String) : Bool :=
  match amb with
  | none => true
  | some t => rowTenant == t

/-- The `user_roles` local of `get_user_permissions`:
`UserRole.query.filter_by(user_id=user_id).all()` under the tenant
interceptor. -/
def userRolesOf (amb : Option String) (db : RbacDb) (user_id : String) :
    List UserRoleRow :=
  db.userRoles.filter
    (fun ur => ur.user_id == user_id && tenantScope amb ur.tenant_id)

/-- The `roles` local of `get_user_permissions`:
`Role.query.filter(Role.id.in_(role_ids)).all()` under the tenant
interceptor, where `role_ids` is the list of role ids of the user's
`user_roles` rows. -/
def rolesOf (amb : Option String) (db : RbacDb) (user_id : String) :
    List RoleRow :=
  db.roles.filter
    (fun r => ((userRolesOf amb db user_id).map (·.role_id)).contains r.id &&
      tenantScope amb r.tenant_id)

/-- `get_user_permissions` from `rbac/services.py`: query the user's
`user_roles` rows (returning `[]` when there are none), load the
referenced roles with their permissions, and return
`sorted(list({permission names}))`.  Both queries run through the
tenant interceptor, hence the `tenantScope amb` conjunct. -/
def get_user_permissions (amb : Option String) (db : RbacDb) (user_id : String) :
    List String :=
  if (userRolesOf amb db user_id).isEmpty then []
  else sortedDedup (((rolesOf amb db user_id).map (·.perms)).flatten)

/-- `parse_resource_from_permission` from `rbac/services.py`:
`permission.split('.', 1)[0]`, the text before the first dot (the whole
string when there is no dot). -/
def takeBeforeDot : List Char → List Char
  | [] => []
  | c :: cs => if c = '.' then [] else c :: takeBeforeDot cs

/-- String-level wrapper for `parse_resource_from_permission`. -/
def parse_resource_from_permission (permission : String) : String :=
  String.mk (takeBeforeDot permission.data)

/-- `has_permission` from `rbac/services.py`: exact permission match, or
`<resource>.manage` where `<resource>` is the text before the first dot. -/
def has_permission (amb : Option String) (db : RbacDb) (user_id : String)
    (permission_name : String) : Bool :=
  let user_permissions := get_user_permissions amb db user_id
  if permission_name ∈ user_permissions then true
  else
    let resource := parse_resource_from_permission permission_name
    let manage_permission := resource ++ ".manage"
    if manage_permission ∈ user_permissions then true
    else false

/-- `check_user_has_any_permissions` from `rbac/services.py`. -/
def check_user_has_any_permissions (amb : Option String) (db : RbacDb)
    (user_id : String) : Bool :=
  decide (0 < (get_user_permissions amb db user_id).length)

/-- C1: `authorize(identity, p)` is true iff `p` itself is among the
identity's permissions or `<resource>.manage` is, where `<resource>` is
the text before the first `.` in `p`; holding a `manage` permission for
one resource therefore never satisfies a check for a different resource
(the rule is one level only, with no recursion). -/
theorem has_permission_iff (amb : Option String) (db : RbacDb) (uid p : String) :
    has_permission amb db uid p = true ↔
      (p ∈ get_user_permissions amb db uid ∨
       parse_resource_from_permission p ++ ".manage" ∈ get_user_permissions amb db uid) := by
  simp only [has_permission]
  split_ifs with h1 h2 <;> simp_all

/-- C8: `permissions_for(identity)`, evaluated with the ambient tenant
bound to the identity's tenant `t`, is sorted, duplicate-free, and its
members are exactly the permission names of roles of tenant `t` assigned
to the identity by a `user_roles` row of tenant `t` (assignments of a
different tenant contribute nothing); with no role assignments the
result is the empty list.  Determinism is inherent: the resolver is a
pure function of the database. -/
theorem get_user_permissions_spec (t : String) (db : RbacDb) (uid : String) :
    List.Sorted strLeP (get_user_permissions (some t) db uid) ∧
    (get_user_permissions (some t) db uid).Nodup ∧
    (∀ p, p ∈ get_user_permissions (some t) db uid ↔
      ∃ ur ∈ db.userRoles, ur.user_id = uid ∧ ur.tenant_id = t ∧
        ∃ r ∈ db.roles, r.id = ur.role_id ∧ r.tenant_id = t ∧ p ∈ r.perms) ∧
    ((∀ ur ∈ db.userRoles, ¬(ur.user_id = uid ∧ ur.tenant_id = t)) →
      get_user_permissions (some t) db uid = []) := by
  refine ⟨?_, ?_, ?_, ?_⟩
  · unfold get_user_permissions
    split
    · exact List.sorted_nil
    · exact sortedDedup_sorted _
  · unfold get_user_permissions
    split
    · exact List.nodup_nil
    · exact sortedDedup_nodup _
  · intro p
    unfold get_user_permissions
    split
    · rename_i hE
      simp only [userRolesOf, List.isEmpty_iff, List.filter_eq_nil_iff] at hE
      simp only [List.not_mem_nil, false_iff]
      rintro ⟨ur, hur, hu, ht, -⟩
      exact absurd (hE ur hur) (by simp [tenantScope, hu, ht])
    · rw [mem_sortedDedup]
      simp only [rolesOf, userRolesOf, List.mem_flatten, List.mem_map,
        List.mem_filter, Bool.and_eq_true, List.contains, List.elem_eq_mem,
        decide_eq_true_eq, List.mem_map, tenantScope, beq_iff_eq]
      constructor
      · rintro ⟨l, ⟨r, ⟨hr, ⟨ur, ⟨hur, hu, ht⟩, hid⟩, hrt⟩, rfl⟩, hp⟩
        exact ⟨ur, hur, hu, ht, r, hr, hid.symm, hrt, hp⟩
      · rintro ⟨ur, hur, hu, ht, r, hr, hid, hrt, hp⟩
        exact ⟨r.perms, ⟨r, ⟨hr, ⟨ur, ⟨hur, hu, ht⟩, hid.symm⟩, hrt⟩, rfl⟩, hp⟩
  · intro h
    have hnil : userRolesOf (some t) db uid = [] := by
      unfold userRolesOf
      rw [List.filter_eq_nil_iff]
      intro ur hur
      have := h ur hur
      simp only [tenantScope, Bool.and_eq_true, beq_iff_eq, not_and] at this ⊢
      tauto
    simp [get_user_permissions, hnil]

/-- Witness for `get_user_permissions_spec`: applied to a database with a
single cross-tenant role assignment, whose hypothesis is discharged by
evaluation. -/
theorem get_user_permissions_spec_witness :
    get_user_permissions (some "tA")
      ⟨[⟨"u1", "r1", "tB"⟩], [⟨"r1", "tB", ["x.read"]⟩]⟩ "u1" = [] := by
  refine (get_user_permissions_spec "tA" ⟨[⟨"u1", "r1", "tB"⟩], [⟨"r1", "tB", ["x.read"]⟩]⟩ "u1").2.2.2 ?_
  decide

/-! ### Tenant context resolver (`backend/core/tenant.py`)

`resolve_tenant_for_auth` tries, in order: (1) `tenant_id`/`tenantId`
from the request body, (1b) `subdomain` from the request body,
(2) the `X-Tenant-ID` header, (3) the subdomain parsed from the host
(with a default-tenant fallback for single-part hosts), (4) the
configured default subdomain.  Lookups by id use `Tenant.query.get`
(any status); lookups by subdomain use
`filter_by(subdomain=..., status='active')`. -/

/-- A row of the `tenants` table. -/
structure TenantRow where
  id : String
  subdomain : String
  status : String
  deriving DecidableEq, Repr

/-- `Tenant.query.get(tenant_id)`: primary-key lookup, any status. -/
def tenantGet (db : List TenantRow) (tid : String) : Option TenantRow :=
  db.find? (fun t => t.id == tid)

/-- `Tenant.query.filter_by(subdomain=sub, status=TENANT_STATUS_ACTIVE).first()`. -/
def findActiveBySubdomain (db : List TenantRow) (sub : String) : Option TenantRow :=
  db.find? (fun t => t.subdomain == sub && t.status == "active")

/-- The request-derived inputs `resolve_tenant_for_auth` reads.  String
fields are modelled post-normalisation (`strip`/`lower` applied);
`none` stands for an absent or falsy value, `host_parts = []` for a
falsy `request.host`. -/
structure AuthRequest where
  g_tenant_id : Option String
  body_tenant_id : Option String
  body_subdomain : Option String
  header_tenant_id : Option String
  host_parts : List String
  default_subdomain : String
  deriving DecidableEq, Repr

/-- Outcome of `resolve_tenant_for_auth`: `noop` when a tenant is already
bound (the function returns `None` without touching `g`), `ok` when it
binds `g.tenant_id`, `err` for the `(status_code, error)` failures. -/
inductive ResolveOutcome where
  | noop
  | ok (tenant_id : String)
  | err (status : Nat) (error : String)
  deriving DecidableEq, Repr

/-- Step 1 of the resolution chain: `body.get("tenant_id") or body.get("tenantId")`,
looked up by primary key. -/
def bodyTenantCandidate (req : AuthRequest) (db : List TenantRow) : Option TenantRow :=
  match req.body_tenant_id with
  | some s => tenantGet db s
  | none => none

/-- Step 1b: `body.get("subdomain")`, stripped and lowered, looked up
with the `status='active'` filter. -/
def bodySubdomainCandidate (req : AuthRequest) (db : List TenantRow) : Option TenantRow :=
  match req.body_subdomain with
  | some sub => findActiveBySubdomain db sub
  | none => none

/-- Step 2: the `X-Tenant-ID` header, looked up by primary key. -/
def headerCandidate (req : AuthRequest) (db : List TenantRow) : Option TenantRow :=
  match req.header_tenant_id with
  | some h => tenantGet db h
  | none => none

/-- Step 3: the subdomain parsed from `request.host` (first host part,
unless it is `www`/`api`), with the default-tenant fallback when the
host has a single part; both lookups carry the `status='active'` filter. -/
def hostCandidate (req : AuthRequest) (db : List TenantRow) (use_default : Bool) :
    Option TenantRow :=
  if req.host_parts.isEmpty then none
  else if 2 ≤ req.host_parts.length ∧
      req.host_parts.headD "" ≠ "www" ∧ req.host_parts.headD "" ≠ "api" then
    findActiveBySubdomain db (req.host_parts.headD "")
  else if req.host_parts.length = 1 ∧ use_default = true then
    findActiveBySubdomain db req.default_subdomain
  else none

/-- Step 4: the configured default subdomain, with the `status='active'`
filter. -/
def defaultCandidate (req : AuthRequest) (db : List TenantRow) (use_default : Bool) :
    Option TenantRow :=
  if use_default = true ∧ req.default_subdomain ≠ "" then
    findActiveBySubdomain db req.default_subdomain
  else none

/-- The `tenant` local at the end of the candidate chain of
`resolve_tenant_for_auth`: each step runs only if every earlier step
left `tenant is None`. -/
def resolvedTenant (req : AuthRequest) (db : List TenantRow) (use_default : Bool) :
    Option TenantRow :=
  ((((bodyTenantCandidate req db).or
      (bodySubdomainCandidate req db)).or
      (headerCandidate req db)).or
      (hostCandidate req db use_default)).or
      (defaultCandidate req db use_default)

/-- `resolve_tenant_for_auth` from `core/tenant.py`: no-op when
`g.tenant_id` is already set; otherwise run the candidate chain, fail
with `(400, TenantRequired)` when nothing matched, fail with
`(403, TenantSuspended | TenantUnavailable)` when the matched tenant is
not active, and bind the tenant otherwise. -/
def resolve_tenant_for_auth (req : AuthRequest) (db : List TenantRow)
    (use_default : Bool) : ResolveOutcome :=
  if req.g_tenant_id.isSome then .noop
  else
    match resolvedTenant req db use_default with
    | none => .err 400 "TenantRequired"
    | some t =>
      if t.status ≠ "active" then
        if t.status = "suspended" then .err 403 "TenantSuspended"
        else .err 403 "TenantUnavailable"
      else .ok t.id

theorem findActiveBySubdomain_status {db : List TenantRow} {sub : String}
    {t : TenantRow} (h : findActiveBySubdomain db sub = some t) :
    t.subdomain = sub ∧ t.status = "active" := by
  unfold findActiveBySubdomain at h
  have := List.find?_some h
  simp only [Bool.and_eq_true, beq_iff_eq] at this
  exact this

/-- C10 counterexample: a suspended tenant addressed by its routing key
in the request payload.  The `status='active'` filter makes the
suspended tenant invisible to the subdomain lookup, so resolution falls
through every candidate and fails with `TenantRequired`, not with
`TenantSuspended` as the claim requires for all four candidate sources. -/
theorem resolve_suspended_subdomain_counterexample :
    (∃ t ∈ [TenantRow.mk "t1" "acme" "suspended"],
        t.subdomain = "acme" ∧ t.status = "suspended") ∧
    resolve_tenant_for_auth
        ⟨none, none, some "acme", none, [], "default"⟩
        [TenantRow.mk "t1" "acme" "suspended"] true =
      .err 400 "TenantRequired" := by
  constructor
  · exact ⟨TenantRow.mk "t1" "acme" "suspended", by simp, rfl, rfl⟩
  · rfl

/-- C10 amended: resolution is a no-op when a tenant is already bound;
the candidates are tried in the priority order body-id, body-subdomain,
header, host, default; `TenantRequired` is returned exactly when no
candidate matched; a matched tenant that is not active yields
`TenantSuspended`/`TenantUnavailable` — which can only happen for the
two id-based sources (body id and header), because the subdomain-based
sources (body subdomain, host, default) filter on `status='active'` and
treat a non-active tenant as no match. -/
theorem resolve_tenant_for_auth_spec (req : AuthRequest) (db : List TenantRow)
    (use_default : Bool) :
    (req.g_tenant_id.isSome → resolve_tenant_for_auth req db use_default = .noop) ∧
    (req.g_tenant_id = none →
      (resolve_tenant_for_auth req db use_default = .err 400 "TenantRequired" ↔
        resolvedTenant req db use_default = none)) ∧
    (req.g_tenant_id = none →
      ∀ t, resolvedTenant req db use_default = some t →
        resolve_tenant_for_auth req db use_default =
          (if t.status = "active" then .ok t.id
           else if t.status = "suspended" then .err 403 "TenantSuspended"
           else .err 403 "TenantUnavailable")) ∧
    (∀ t, bodySubdomainCandidate req db = some t → t.status = "active") ∧
    (∀ t, hostCandidate req db use_default = some t → t.status = "active") ∧
    (∀ t, defaultCandidate req db use_default = some t → t.status = "active") ∧
    (∀ t, bodyTenantCandidate req db = some t →
      resolvedTenant req db use_default = some t) ∧
    (bodyTenantCandidate req db = none →
      ∀ t, bodySubdomainCandidate req db = some t →
        resolvedTenant req db use_default = some t) ∧
    (bodyTenantCandidate req db = none → bodySubdomainCandidate req db = none →
      ∀ t, headerCandidate req db = some t →
        resolvedTenant req db use_default = some t) ∧
    (bodyTenantCandidate req db = none → bodySubdomainCandidate req db = none →
      headerCandidate req db = none →
      ∀ t, hostCandidate req db use_default = some t →
        resolvedTenant req db use_default = some t) ∧
    (bodyTenantCandidate req db = none → bodySubdomainCandidate req db = none →
      headerCandidate req db = none → hostCandidate req db use_default = none →
      resolvedTenant req db use_default = defaultCandidate req db use_default) := by
  refine ⟨?_, ?_, ?_, ?_, ?_, ?_, ?_, ?_, ?_, ?_, ?_⟩
  · intro h
    unfold resolve_tenant_for_auth
    simp [h]
  · intro hg
    unfold resolve_tenant_for_auth
    simp only [hg, Option.isSome_none, Bool.false_eq_true, if_false]
    cases hr : resolvedTenant req db use_default with
    | none => simp
    | some t =>
      simp only [ne_eq, ite_not]
      constructor
      · intro h
        split at h <;> [skip; split at h] <;> simp_all
      · intro h
        exact absurd h (by simp)
  · intro hg t ht
    unfold resolve_tenant_for_auth
    simp only [hg, Option.isSome_none, Bool.false_eq_true, if_false, ht]
    by_cases ha : t.status = "active" <;> simp [ha]
  · intro t h
    unfold bodySubdomainCandidate at h
    cases hb : req.body_subdomain with
    | none => simp [hb] at h
    | some sub =>
      rw [hb] at h
      exact (findActiveBySubdomain_status h).2
  · intro t h
    unfold hostCandidate at h
    split at h
    · exact absurd h (by simp)
    · split at h
      · exact (findActiveBySubdomain_status h).2
      · split at h
        · exact (findActiveBySubdomain_status h).2
        · exact absurd h (by simp)
  · intro t h
    unfold defaultCandidate at h
    split at h
    · exact (findActiveBySubdomain_status h).2
    · exact absurd h (by simp)
  · intro t h
    unfold resolvedTenant
    simp [h, Option.or]
  · intro h0 t h
    unfold resolvedTenant
    simp [h0, h, Option.or]
  · intro h0 h1 t h
    unfold resolvedTenant
    simp [h0, h1, h, Option.or]
  · intro h0 h1 h2 t h
    unfold resolvedTenant
    simp [h0, h1, h2, h, Option.or]
  · intro h0 h1 h2 h3
    unfold resolvedTenant
    simp [h0, h1, h2, h3, Option.or]

/-- Witness for `resolve_tenant_for_auth_spec`: the idempotence clause
applied to a request with a tenant already bound. -/
theorem resolve_tenant_for_auth_spec_witness :
    resolve_tenant_for_auth ⟨some "t1", none, none, none, [], "default"⟩ [] true =
      .noop :=
  (resolve_tenant_for_auth_spec ⟨some "t1", none, none, none, [], "default"⟩ [] true).1
    (by decide)

/-! ### Session-establishing entry points (`backend/modules/auth/routes.py`)

The `login` route and the `validate_email` auto-login route are the two
places that create a session.  Database lookups (`authenticate_user`,
`find_users_by_email_password`, `get_user_by_email`), platform settings
and token generation are modelled as fields of an environment record;
the control flow of the routes is translated branch by branch.  The
`Nat` component of each result counts `create_session` calls. -/

/-- The fields of a `users` row the login flow reads.  `login_locked`
stands for `login_locked_until and login_locked_until > utcnow()`. -/
structure UserRec where
  id : String
  email_verified : Bool
  is_platform_admin : Bool
  login_locked : Bool
  deriving DecidableEq, Repr

/-- The tenant fields returned in the `requires_tenant_choice` payload. -/
structure TenantInfo where
  id : String
  name : String
  subdomain : String
  deriving DecidableEq, Repr

/-- Request- and database-derived inputs of the `login` route.  `email`
is post-strip, `password` is `''` when missing; `resolve_err` is the
failure of `resolve_tenant_for_auth` when a tenant hint was supplied;
`permsOf` is `get_user_permissions` under the bound tenant. -/
structure LoginEnv where
  email : String
  password : String
  tenant_specified : Bool
  resolve_err : Option (Nat × String)
  user_by_email : Option UserRec
  auth_user : Option UserRec
  user_matches : List (UserRec × TenantInfo)
  maintenance_mode : Bool
  permsOf : String → List String
  access_token : String
  refresh_token : String

/-- The possible responses of the `login` route. -/
inductive LoginOutcome where
  | validationError
  | tenantError (code : Nat) (error : String)
  | maintenanceMode
  | tooManyAttempts
  | invalidCredentials
  | requiresTenantChoice (tenants : List TenantInfo)
  | emailNotVerified
  | noPermissions
  | success (access_token refresh_token : String) (permissions : List String)
  deriving DecidableEq, Repr

/-- The common tail of `login` once `user` (and tenant) are set: the
email-verified check, the zero-permission check, then token generation
and `create_session`. -/
def loginCommon (env : LoginEnv) (user : UserRec) : LoginOutcome × Nat :=
  if user.email_verified = false then (.emailNotVerified, 0)
  else
    let permissions := env.permsOf user.id
    if permissions.isEmpty then (.noPermissions, 0)
    else (.success env.access_token env.refresh_token permissions, 1)

/-- The maintenance-mode / lockout guards run on a non-platform-admin
user before and after authentication. -/
def loginGuards (env : LoginEnv) (u : UserRec) (k : LoginOutcome × Nat) :
    LoginOutcome × Nat :=
  if u.is_platform_admin = false ∧ env.maintenance_mode then (.maintenanceMode, 0)
  else if u.is_platform_admin = false ∧ u.login_locked then (.tooManyAttempts, 0)
  else k

/-- The `login` route from `auth/routes.py`: validation, then either the
single-tenant path (resolve tenant, guard, authenticate) or the
cross-tenant search path (`find_users_by_email_password` over all
tenants), then the common verified/permissions/session tail. -/
def login (env : LoginEnv) : LoginOutcome × Nat :=
  if env.email = "" ∨ env.password = "" then (.validationError, 0)
  else if env.tenant_specified then
    match env.resolve_err with
    | some ce => (.tenantError ce.1 ce.2, 0)
    | none =>
      match env.user_by_email with
      | some u =>
        loginGuards env u
          (match env.auth_user with
           | none => (.invalidCredentials, 0)
           | some user => loginCommon env user)
      | none =>
        match env.auth_user with
        | none => (.invalidCredentials, 0)
        | some user => loginCommon env user
  else
    match env.user_matches with
    | [] => (.invalidCredentials, 0)
    | [ut] => loginGuards env ut.1 (loginCommon env ut.1)
    | ms => (.requiresTenantChoice (ms.map (·.2)), 0)

/-- The `user` variable of `login` at the entry of the common tail:
`authenticate_user`'s result in the single-tenant path, the unique
cross-tenant match otherwise. -/
def loginAuthUser (env : LoginEnv) : Option UserRec :=
  if env.email = "" ∨ env.password = "" then none
  else if env.tenant_specified then
    match env.resolve_err with
    | some _ => none
    | none => env.auth_user
  else
    match env.user_matches with
    | [ut] => some ut.1
    | _ => none

/-- The fields of a `users` row the email-verification route reads. -/
structure VerifyUser where
  id : String
  email_verified : Bool
  verification_token : Option String
  deriving DecidableEq, Repr

/-- Inputs of the `validate_email` route; `resolve_err` is true when
`resolve_tenant_for_auth()` failed, `user` is the tenant-scoped
`get_user_by_email` result. -/
structure VerifyEnv where
  resolve_err : Bool
  token : Option String
  email : Option String
  user : Option VerifyUser
  permsOf : String → List String
  access_token : String
  refresh_token : String

/-- The `validate_email` route redirects either to an error URL or to
the success URL carrying the new token pair. -/
inductive VerifyOutcome where
  | errorRedirect (message : String)
  | successRedirect (access_token refresh_token : String)
  deriving DecidableEq, Repr

/-- The `validate_email` route from `auth/routes.py`: tenant resolution,
token/email validation, mark the user verified, then the
zero-permission check before the auto-login session is created. -/
def validate_email (env : VerifyEnv) : VerifyOutcome × Nat :=
  if env.resolve_err then (.errorRedirect "Tenant is required", 0)
  else
    match env.token with
    | none => (.errorRedirect "Token is required", 0)
    | some tok =>
      match env.email with
      | none => (.errorRedirect "Email is required", 0)
      | some _ =>
        match env.user with
        | none => (.errorRedirect "User not found", 0)
        | some u =>
          if u.email_verified then
            (.errorRedirect "Email already verified. Please login.", 0)
          else if u.verification_token ≠ some tok then
            (.errorRedirect "Invalid or expired token", 0)
          else
            let permissions := env.permsOf u.id
            if permissions.isEmpty then
              (.errorRedirect
                "Email verified successfully, but no permissions assigned. Contact administrator.",
               0)
            else (.successRedirect env.access_token env.refresh_token, 1)

theorem loginCommon_shape (env : LoginEnv) (u : UserRec) :
    (loginCommon env u =
        (.success env.access_token env.refresh_token (env.permsOf u.id), 1) ∧
      u.email_verified = true ∧ env.permsOf u.id ≠ []) ∨
    ((loginCommon env u).2 = 0 ∧
      ∀ a r p, (loginCommon env u).1 ≠ .success a r p) := by
  unfold loginCommon
  by_cases h1 : u.email_verified = false
  · right; simp [h1]
  · by_cases h2 : (env.permsOf u.id).isEmpty
    · right; simp [h1, h2]
    · left
      refine ⟨by simp [h1, h2], by simpa using h1,
        by simpa [List.isEmpty_iff] using h2⟩

theorem loginGuards_shape (env : LoginEnv) (u : UserRec) (k : LoginOutcome × Nat) :
    loginGuards env u k = k ∨
    ((loginGuards env u k).2 = 0 ∧
      ∀ a r p, (loginGuards env u k).1 ≠ .success a r p) := by
  unfold loginGuards
  split_ifs with h1 h2
  · right; simp
  · right; simp
  · left; rfl

theorem login_shape (env : LoginEnv) :
    (∃ u, loginAuthUser env = some u ∧
      login env =
        (.success env.access_token env.refresh_token (env.permsOf u.id), 1) ∧
      env.permsOf u.id ≠ []) ∨
    ((login env).2 = 0 ∧ ∀ a r p, (login env).1 ≠ .success a r p) := by
  by_cases hv : env.email = "" ∨ env.password = ""
  · have hl : login env = (.validationError, 0) := by
      unfold login; rw [if_pos hv]
    right; rw [hl]; simp
  · by_cases ht : env.tenant_specified
    · cases hre : env.resolve_err with
      | some ce =>
        have hl : login env = (.tenantError ce.1 ce.2, 0) := by
          unfold login; rw [if_neg hv, if_pos ht, hre]
        right; rw [hl]; simp
      | none =>
        cases hub : env.user_by_email with
        | some u0 =>
          cases hau : env.auth_user with
          | none =>
            have hl : login env = loginGuards env u0 (.invalidCredentials, 0) := by
              unfold login; rw [if_neg hv, if_pos ht, hre, hub, hau]
            rcases loginGuards_shape env u0 (.invalidCredentials, 0) with hg | hg
            · right; rw [hl, hg]; simp
            · right; rw [hl]; exact hg
          | some user =>
            have hl : login env = loginGuards env u0 (loginCommon env user) := by
              unfold login; rw [if_neg hv, if_pos ht, hre, hub, hau]
            have hau' : loginAuthUser env = some user := by
              unfold loginAuthUser; rw [if_neg hv, if_pos ht, hre, hau]
            rcases loginGuards_shape env u0 (loginCommon env user) with hg | hg
            · rw [hl, hg]
              rcases loginCommon_shape env user with ⟨hc, -, hp⟩ | hc
              · left; exact ⟨user, hau', hc, hp⟩
              · right; exact hc
            · right; rw [hl]; exact hg
        | none =>
          cases hau : env.auth_user with
          | none =>
            have hl : login env = (.invalidCredentials, 0) := by
              unfold login; rw [if_neg hv, if_pos ht, hre, hub, hau]
            right; rw [hl]; simp
          | some user =>
            have hl : login env = loginCommon env user := by
              unfold login; rw [if_neg hv, if_pos ht, hre, hub, hau]
            have hau' : loginAuthUser env = some user := by
              unfold loginAuthUser; rw [if_neg hv, if_pos ht, hre, hau]
            rw [hl]
            rcases loginCommon_shape env user with ⟨hc, -, hp⟩ | hc
            · left; exact ⟨user, hau', hc, hp⟩
            · right; exact hc
    · cases hm : env.user_matches with
      | nil =>
        have hl : login env = (.invalidCredentials, 0) := by
          unfold login; rw [if_neg hv, if_neg ht, hm]
        right; rw [hl]; simp
      | cons ut ms =>
        cases ms with
        | nil =>
          have hl : login env = loginGuards env ut.1 (loginCommon env ut.1) := by
            unfold login; rw [if_neg hv, if_neg ht, hm]
          have hau' : loginAuthUser env = some ut.1 := by
            unfold loginAuthUser; rw [if_neg hv, if_neg ht, hm]
          rcases loginGuards_shape env ut.1 (loginCommon env ut.1) with hg | hg
          · rw [hl, hg]
            rcases loginCommon_shape env ut.1 with ⟨hc, -, hp⟩ | hc
            · left; exact ⟨ut.1, hau', hc, hp⟩
            · right; exact hc
          · right; rw [hl]; exact hg
        | cons ut2 ms2 =>
          have hl : login env =
              (.requiresTenantChoice ((ut :: ut2 :: ms2).map (·.2)), 0) := by
            unfold login; rw [if_neg hv, if_neg ht, hm]
          right; rw [hl]; simp

theorem validate_email_shape (env : VerifyEnv) :
    (∃ u, env.user = some u ∧
      validate_email env =
        (.successRedirect env.access_token env.refresh_token, 1) ∧
      env.permsOf u.id ≠ []) ∨
    ((validate_email env).2 = 0 ∧
      ∀ a r, (validate_email env).1 ≠ .successRedirect a r) := by
  by_cases hre : env.resolve_err = true
  · right; simp [validate_email, hre]
  · cases htok : env.token with
    | none => right; simp [validate_email, hre, htok]
    | some tok =>
      cases hem : env.email with
      | none => right; simp [validate_email, hre, htok, hem]
      | some e =>
        cases hu : env.user with
        | none => right; simp [validate_email, hre, htok, hem, hu]
        | some u =>
          by_cases h1 : u.email_verified = true
          · right; simp [validate_email, hre, htok, hem, hu, h1]
          · by_cases h2 : u.verification_token = some tok
            · by_cases h3 : (env.permsOf u.id).isEmpty
              · right; simp [validate_email, hre, htok, hem, hu, h1, h2, h3]
              · left
                refine ⟨u, rfl, ?_, by simpa [List.isEmpty_iff] using h3⟩
                simp [validate_email, hre, htok, hem, hu, h1, h2, h3]
            · right; simp [validate_email, hre, htok, hem, hu, h1, h2]

/-- C9: an identity with an empty permission set never obtains a session
from either entry point: `login` and `validate_email` return a distinct
rejection (`NoPermissions` / the no-permissions redirect), create no
session, and a token pair is only ever returned for an authenticated
identity whose permission list is non-empty. -/
theorem zero_permission_no_session :
    (∀ env : LoginEnv, (∀ uid, env.permsOf uid = []) →
      (∀ a r p, (login env).1 ≠ .success a r p) ∧ (login env).2 = 0) ∧
    (∀ (env : LoginEnv) (u : UserRec), loginAuthUser env = some u →
      u.email_verified = true → env.permsOf u.id = [] →
      (login env).1 = .noPermissions ∨ (login env).1 = .maintenanceMode ∨
        (login env).1 = .tooManyAttempts) ∧
    (∀ (env : LoginEnv) (a r : String) (p : List String) (n : ℕ),
      login env = (.success a r p, n) →
      ∃ u, loginAuthUser env = some u ∧ p = env.permsOf u.id ∧ p ≠ [] ∧ n = 1) ∧
    (∀ env : VerifyEnv, (∀ uid, env.permsOf uid = []) →
      (∀ a r, (validate_email env).1 ≠ .successRedirect a r) ∧
        (validate_email env).2 = 0) ∧
    (∀ (env : VerifyEnv) (u : VerifyUser) (tok : String),
      env.resolve_err = false → env.token = some tok → env.email.isSome →
      env.user = some u → u.email_verified = false →
      u.verification_token = some tok → env.permsOf u.id = [] →
      validate_email env =
        (.errorRedirect
          "Email verified successfully, but no permissions assigned. Contact administrator.",
         0)) ∧
    (∀ (env : VerifyEnv) (a r : String) (n : ℕ),
      validate_email env = (.successRedirect a r, n) →
      ∃ u, env.user = some u ∧ env.permsOf u.id ≠ [] ∧ n = 1) := by
  refine ⟨?_, ?_, ?_, ?_, ?_, ?_⟩
  · intro env hperm
    rcases login_shape env with ⟨u, -, -, hp⟩ | ⟨h0, hns⟩
    · exact absurd (hperm u.id) hp
    · exact ⟨hns, h0⟩
  · intro env u hu hver hperm
    by_cases hv : env.email = "" ∨ env.password = ""
    · simp [loginAuthUser, hv] at hu
    · by_cases ht : env.tenant_specified = true
      · cases hre : env.resolve_err with
        | some ce => simp [loginAuthUser, hv, ht, hre] at hu
        | none =>
          have hau : env.auth_user = some u := by
            simpa [loginAuthUser, hv, ht, hre] using hu
          cases hub : env.user_by_email with
          | some u0 =>
            by_cases h1 : u0.is_platform_admin = false ∧ env.maintenance_mode = true
            · right; left
              simp [login, loginGuards, hv, ht, hre, hub, hau, h1]
            · by_cases h2 : u0.is_platform_admin = false ∧ u0.login_locked = true
              · right; right
                have hmm : env.maintenance_mode = false := by
                  by_contra hc
                  exact h1 ⟨h2.1, by simpa using hc⟩
                simp [login, loginGuards, hv, ht, hre, hub, hau, h1, h2, hmm]
              · left
                simp [login, loginGuards, loginCommon, hv, ht, hre, hub,
                  hau, h1, h2, hver, hperm]
          | none =>
            left
            simp [login, loginCommon, hv, ht, hre, hub, hau, hver, hperm]
      · cases hm : env.user_matches with
        | nil => simp [loginAuthUser, hv, ht, hm] at hu
        | cons ut ms =>
          cases ms with
          | nil =>
            have hut : ut.1 = u := by
              simpa [loginAuthUser, hv, ht, hm] using hu
            by_cases h1 : u.is_platform_admin = false ∧ env.maintenance_mode = true
            · right; left
              simp [login, loginGuards, hv, ht, hm, hut, h1]
            · by_cases h2 : u.is_platform_admin = false ∧ u.login_locked = true
              · right; right
                have hmm : env.maintenance_mode = false := by
                  by_contra hc
                  exact h1 ⟨h2.1, by simpa using hc⟩
                simp [login, loginGuards, hv, ht, hm, hut, h1, h2, hmm]
              · left
                simp [login, loginGuards, loginCommon, hv, ht, hm, hut,
                  h1, h2, hver, hperm]
          | cons ut2 ms2 => simp [loginAuthUser, hv, ht, hm] at hu
  · intro env a r p n hs
    rcases login_shape env with ⟨u, hu, hl, hp⟩ | ⟨-, hns⟩
    · rw [hs] at hl
      simp only [Prod.mk.injEq, LoginOutcome.success.injEq] at hl
      exact ⟨u, hu, hl.1.2.2, by rw [← hl.1.2.2] at hp; exact hp, hl.2⟩
    · exact absurd (congrArg Prod.fst hs) (by simpa using hns a r p)
  · intro env hperm
    rcases validate_email_shape env with ⟨u, -, -, hp⟩ | ⟨h0, hns⟩
    · exact absurd (hperm u.id) hp
    · exact ⟨hns, h0⟩
  · intro env u tok hre htok hem hu hv hvt hperm
    obtain ⟨e, he⟩ := Option.isSome_iff_exists.mp hem
    unfold validate_email
    simp [hre, htok, he, hu, hv, hvt, hperm]
  · intro env a r n hs
    rcases validate_email_shape env with ⟨u, hu, hl, hp⟩ | ⟨-, hns⟩
    · rw [hs] at hl
      simp only [Prod.mk.injEq] at hl
      exact ⟨u, hu, hp, hl.2⟩
    · exact absurd (congrArg Prod.fst hs) (by simpa using hns a r)

/-- Witness for `zero_permission_no_session`: a concrete environment
whose permission resolver returns the empty list for every identity
yields no token and no session from `login`. -/
theorem zero_permission_no_session_witness :
    (∀ a r p, (login ⟨"a@b.c", "pw", false, none, none, none,
        [(⟨"u1", true, false, false⟩, ⟨"t1", "T", "t"⟩)], false,
        fun _ => [], "at", "rt"⟩).1 ≠ .success a r p) ∧
    (login ⟨"a@b.c", "pw", false, none, none, none,
        [(⟨"u1", true, false, false⟩, ⟨"t1", "T", "t"⟩)], false,
        fun _ => [], "at", "rt"⟩).2 = 0 :=
  zero_permission_no_session.1
    ⟨"a@b.c", "pw", false, none, none, none,
      [(⟨"u1", true, false, false⟩, ⟨"t1", "T", "t"⟩)], false,
      fun _ => [], "at", "rt"⟩ (fun _ => rfl)


/-! ### Ledger engine (`backend/modules/finance/`)

Data model from `finance/models.py` (`StudentFee`, `StudentFeeItem`,
`Payment`) and `finance/enums.py`; algorithms from
`finance/services/payment_service.py` and
`finance/services/student_fee_service.py`.  A `StudentFee` bundles the
obligation row with its items (in creation order, the order of
`order_by(StudentFeeItem.created_at)`) and its payments (the
`StudentFee.payments` relationship).  `Decimal` amounts are `ℚ`, dates
are day numbers in `ℤ`. -/

/-- `StudentFeeStatus` from `finance/enums.py`; `partialPaid` stands for
the enum value `partial` (a reserved word in Lean). -/
inductive StudentFeeStatus where
  | unpaid
  | partialPaid
  | paid
  | overdue
  deriving DecidableEq, Repr

/-- `PaymentStatus` from `finance/enums.py`. -/
inductive PaymentStatus where
  | success
  | failed
  | refunded
  deriving DecidableEq, Repr

/-- `PaymentMethod` values from `finance/enums.py`, as the list
`[p.value for p in PaymentMethod]` used by the validation check. -/
def paymentMethods : List String := ["cash", "online", "bank_transfer"]

/-- A `student_fee_items` row: the per-component slice of an obligation. -/
structure StudentFeeItem where
  amount : ℚ
  paid_amount : ℚ
  deriving DecidableEq, Repr

/-- A `payments` row (tenant/fee references live in the enclosing
`StudentFee`; method, reference and notes do not affect the ledger
arithmetic and are omitted except for the validated `method`). -/
structure PaymentRec where
  id : String
  amount : ℚ
  method : String
  status : PaymentStatus
  deriving DecidableEq, Repr

/-- A `student_fees` row together with its items (creation order) and
payments. -/
structure StudentFee where
  student_id : String
  fee_structure_id : String
  total_amount : ℚ
  paid_amount : ℚ
  due_date : Option ℤ
  status : StudentFeeStatus
  items : List StudentFeeItem
  payments : List PaymentRec
  deriving DecidableEq, Repr

/-- The status logic of `recalculate_student_fee_status` as a pure
function of `(total, paid, due_date, today)`. -/
def statusOf (total paid : ℚ) (due : Option ℤ) (today : ℤ) : StudentFeeStatus :=
  if paid ≥ total ∧ total > 0 then .paid
  else if paid > 0 then .partialPaid
  else
    match due with
    | some d => if d < today then .overdue else .unpaid
    | none => .unpaid

/-- `recalculate_student_fee_status` from `payment_service.py`: rewrite
`status` from the current `total_amount`, `paid_amount` and `due_date`. -/
def recalculate_student_fee_status (today : ℤ) (sf : StudentFee) : StudentFee :=
  { sf with status := statusOf sf.total_amount sf.paid_amount sf.due_date today }

/-- The allocation loop of `apply_payment_to_fee_items` over the items
in creation order: skip items with no remaining capacity, fill each
item's remaining capacity before moving on, stop when the amount is
exhausted. -/
def apply_payment_to_fee_items (amount : ℚ) :
    List StudentFeeItem → List StudentFeeItem
  | [] => []
  | item :: rest =>
    if amount ≤ 0 then item :: rest
    else if item.amount - item.paid_amount ≤ 0 then
      item :: apply_payment_to_fee_items amount rest
    else
      { item with paid_amount :=
          item.paid_amount + min amount (item.amount - item.paid_amount) } ::
        apply_payment_to_fee_items
          (amount - min amount (item.amount - item.paid_amount)) rest

/-- The reversal loop of `refund_payment` over the items in reverse
creation order (`order_by(created_at.desc())`): skip items with nothing
paid, reduce each item's `paid_amount` down to zero, stop when the
amount is exhausted.  The argument list is already reversed. -/
def reverse_payment_on_items (amount : ℚ) :
    List StudentFeeItem → List StudentFeeItem
  | [] => []
  | item :: rest =>
    if amount ≤ 0 then item :: rest
    else if item.paid_amount ≤ 0 then
      item :: reverse_payment_on_items amount rest
    else
      { item with paid_amount := item.paid_amount - min amount item.paid_amount } ::
        reverse_payment_on_items (amount - min amount item.paid_amount) rest

/-- The refund reversal as it acts on the items in creation order:
reverse, run the loop, reverse back. -/
def refundItems (amount : ℚ) (items : List StudentFeeItem) : List StudentFeeItem :=
  (reverse_payment_on_items amount items.reverse).reverse

/-- `create_payment` from `payment_service.py`, restricted to a fee that
was found: validate the amount and method, reject when the amount
exceeds `total - paid`, then append a `success` payment row, distribute
the amount over the items, bump `paid_amount` and recalculate the
status.  `pid` is the generated payment UUID. -/
def create_payment (today : ℤ) (pid : String) (sf : StudentFee) (amount : ℚ)
    (method : String) : Except String StudentFee :=
  if amount ≤ 0 then .error "Amount must be positive"
  else if ¬ paymentMethods.contains method then
    .error ("Invalid payment method: " ++ method)
  else if amount > sf.total_amount - sf.paid_amount then
    .error "Amount exceeds remaining balance"
  else
    .ok (recalculate_student_fee_status today
      { sf with
        payments := sf.payments ++ [⟨pid, amount, method, .success⟩],
        items := apply_payment_to_fee_items amount sf.items,
        paid_amount := sf.paid_amount + amount })

/-- Replace the first element satisfying `p` (the `.first()` row an
update is applied to). -/
def updateFirst (p : α → Bool) (f : α → α) : List α → List α
  | [] => []
  | x :: xs => if p x then f x :: xs else x :: updateFirst p f xs

/-- `refund_payment` from `payment_service.py`, restricted to a fee
bundle: reject unless the payment exists and has status `success`, then
reverse the amount over the items in reverse creation order, decrement
`paid_amount`, recalculate the status and mark the payment `refunded`. -/
def refund_payment (today : ℤ) (pid : String) (sf : StudentFee) :
    Except String StudentFee :=
  match sf.payments.find? (fun q => q.id == pid) with
  | none => .error "Payment not found"
  | some payment =>
    if payment.status = .refunded then .error "Payment already refunded"
    else if payment.status ≠ .success then .error "Can only refund successful payments"
    else
      .ok (recalculate_student_fee_status today
        { sf with
          items := refundItems payment.amount sf.items,
          paid_amount := sf.paid_amount - payment.amount,
          payments := updateFirst (fun q => q.id == pid)
            (fun q => { q with status := .refunded }) sf.payments })

/-- The per-student slice of `assign_student_fees_for_structure`: a new
obligation for a structure with the given component amounts gets
`status='unpaid'` (set directly, not via the recalculation rule),
`paid_amount = 0`, one zero-paid item per component, and
`total_amount = sum of component amounts`. -/
def assign_student_fee (student_id fee_structure_id : String)
    (components : List ℚ) (due_date : Option ℤ) : StudentFee :=
  { student_id := student_id
    fee_structure_id := fee_structure_id
    total_amount := components.sum
    paid_amount := 0
    due_date := due_date
    status := .unpaid
    items := components.map (fun a => { amount := a, paid_amount := 0 })
    payments := [] }

/-- One accepted ledger mutation on an obligation. -/
inductive FeeStep : StudentFee → StudentFee → Prop where
  | pay (today : ℤ) (pid method : String) (amount : ℚ) (sf sf' : StudentFee) :
      create_payment today pid sf amount method = .ok sf' → FeeStep sf sf'
  | refund (today : ℤ) (pid : String) (sf sf' : StudentFee) :
      refund_payment today pid sf = .ok sf' → FeeStep sf sf'

/-- States reachable from a bulk assignment by accepted payments and
refunds. -/
def FeeReachable (sf : StudentFee) : Prop :=
  ∃ sid fsid components due,
    Relation.ReflTransGen FeeStep (assign_student_fee sid fsid components due) sf

/-- Reachable states whose originating fee structure had only
nonnegative component amounts. -/
def FeeReachableNN (sf : StudentFee) : Prop :=
  ∃ sid fsid components due, (∀ c ∈ components, (0 : ℚ) ≤ c) ∧
    Relation.ReflTransGen FeeStep (assign_student_fee sid fsid components due) sf

/-! ### Ledger invariants -/

/-- Sum of the items' `amount` columns. -/
def sumAmount (items : List StudentFeeItem) : ℚ := (items.map (·.amount)).sum

/-- Sum of the items' `paid_amount` columns. -/
def sumPaid (items : List StudentFeeItem) : ℚ := (items.map (·.paid_amount)).sum

/-- Total remaining capacity the allocation loop can fill: the sum of
the positive parts of `amount - paid_amount`. -/
def fillable (items : List StudentFeeItem) : ℚ :=
  (items.map (fun i => max (i.amount - i.paid_amount) 0)).sum

/-- Sum of the amounts of the `success` payments. -/
def sumSuccess (ps : List PaymentRec) : ℚ :=
  ((ps.filter (fun p => p.status == PaymentStatus.success)).map (·.amount)).sum

/-- Every item has a nonnegative `paid_amount`. -/
def ItemsNonneg (items : List StudentFeeItem) : Prop :=
  ∀ i ∈ items, 0 ≤ i.paid_amount

/-- Every item's `paid_amount` is at most its `amount`. -/
def ItemsBounded (items : List StudentFeeItem) : Prop :=
  ∀ i ∈ items, i.paid_amount ≤ i.amount

/-- The first-come-first-filled shape the allocation and reversal loops
maintain: before any item with a positive `paid_amount`, every earlier
item is filled to capacity (or has no capacity). -/
def FifoFilled : List StudentFeeItem → Prop
  | [] => True
  | item :: rest =>
    (item.amount ≤ item.paid_amount ∧ FifoFilled rest) ∨
    (∀ j ∈ rest, j.paid_amount ≤ 0)

/-- The ledger invariant maintained by every accepted mutation. -/
structure FeeInvariant (sf : StudentFee) : Prop where
  items_nonneg : ItemsNonneg sf.items
  paid_eq_sum : sumPaid sf.items = sf.paid_amount
  total_eq_sum : sumAmount sf.items = sf.total_amount
  fifo : FifoFilled sf.items
  success_sum : sumSuccess sf.payments = sf.paid_amount
  pay_pos : ∀ p ∈ sf.payments, 0 < p.amount

/-! ### Lemmas about the allocation loop -/

theorem apply_nonpos {a : ℚ} (items : List StudentFeeItem) (h : a ≤ 0) :
    apply_payment_to_fee_items a items = items := by
  cases items with
  | nil => rfl
  | cons x xs => simp [apply_payment_to_fee_items, h]

theorem apply_map_amount (a : ℚ) (items : List StudentFeeItem) :
    (apply_payment_to_fee_items a items).map (·.amount) = items.map (·.amount) := by
  induction items generalizing a with
  | nil => rfl
  | cons x xs ih =>
    unfold apply_payment_to_fee_items
    split_ifs with h1 h2 <;> simp [ih]

theorem apply_nonneg {a : ℚ} {items : List StudentFeeItem}
    (hnn : ItemsNonneg items) : ItemsNonneg (apply_payment_to_fee_items a items) := by
  induction items generalizing a with
  | nil => exact hnn
  | cons x xs ih =>
    have hx := hnn x (by simp)
    have hxs : ItemsNonneg xs := fun i hi => hnn i (by simp [hi])
    unfold apply_payment_to_fee_items
    split_ifs with h1 h2
    · exact hnn
    · intro i hi
      rcases List.mem_cons.mp hi with rfl | hi
      · exact hx
      · exact ih hxs i hi
    · intro i hi
      rcases List.mem_cons.mp hi with rfl | hi
      · have : (0 : ℚ) ≤ min a (x.amount - x.paid_amount) := by
          push_neg at h1 h2
          exact le_min h1.le h2.le
        simpa using add_nonneg hx this
      · exact ih hxs i hi

theorem apply_bounded {a : ℚ} {items : List StudentFeeItem}
    (hb : ItemsBounded items) : ItemsBounded (apply_payment_to_fee_items a items) := by
  induction items generalizing a with
  | nil => exact hb
  | cons x xs ih =>
    have hx := hb x (by simp)
    have hxs : ItemsBounded xs := fun i hi => hb i (by simp [hi])
    unfold apply_payment_to_fee_items
    split_ifs with h1 h2
    · exact hb
    · intro i hi
      rcases List.mem_cons.mp hi with rfl | hi
      · exact hx
      · exact ih hxs i hi
    · intro i hi
      rcases List.mem_cons.mp hi with rfl | hi
      · show x.paid_amount + min a (x.amount - x.paid_amount) ≤ x.amount
        have : min a (x.amount - x.paid_amount) ≤ x.amount - x.paid_amount :=
          min_le_right _ _
        linarith
      · exact ih hxs i hi

theorem fillable_nonneg (items : List StudentFeeItem) : 0 ≤ fillable items := by
  unfold fillable
  induction items with
  | nil => simp
  | cons x xs ih =>
    simp only [List.map_cons, List.sum_cons]
    have : (0 : ℚ) ≤ max (x.amount - x.paid_amount) 0 := le_max_right _ _
    linarith

theorem fillable_cons (x : StudentFeeItem) (xs : List StudentFeeItem) :
    fillable (x :: xs) = max (x.amount - x.paid_amount) 0 + fillable xs := by
  simp [fillable]

theorem sumPaid_cons (x : StudentFeeItem) (xs : List StudentFeeItem) :
    sumPaid (x :: xs) = x.paid_amount + sumPaid xs := by
  simp [sumPaid]

theorem sumPaid_apply {a : ℚ} (items : List StudentFeeItem) (h0 : 0 ≤ a) :
    sumPaid (apply_payment_to_fee_items a items) =
      sumPaid items + min a (fillable items) := by
  induction items generalizing a with
  | nil => simp [sumPaid, fillable, apply_payment_to_fee_items, min_eq_right h0]
  | cons x xs ih =>
    unfold apply_payment_to_fee_items
    split_ifs with h1 h2
    · have ha : a = 0 := le_antisymm h1 h0
      have : min a (fillable (x :: xs)) = 0 := by
        rw [ha]; exact min_eq_left (fillable_nonneg _)
      rw [this]; ring
    · rw [sumPaid_cons, sumPaid_cons, ih h0, fillable_cons]
      have : max (x.amount - x.paid_amount) 0 = 0 := max_eq_right h2
      rw [this, zero_add]; ring
    · push_neg at h1 h2
      have hmax : max (x.amount - x.paid_amount) 0 = x.amount - x.paid_amount :=
        max_eq_left h2.le
      rw [sumPaid_cons, sumPaid_cons, fillable_cons, hmax]
      dsimp only
      rcases le_total a (x.amount - x.paid_amount) with hle | hle
      · have ht : min a (x.amount - x.paid_amount) = a := min_eq_left hle
        rw [ht, ih (by linarith)]
        have h01 : min (a - a) (fillable xs) = 0 := by
          simp [min_eq_left (fillable_nonneg xs)]
        have h02 : min a (x.amount - x.paid_amount + fillable xs) = a := by
          have := fillable_nonneg xs
          exact min_eq_left (by linarith)
        rw [h01, h02]; ring
      · have ht : min a (x.amount - x.paid_amount) = x.amount - x.paid_amount :=
          min_eq_right hle
        rw [ht, ih (by linarith)]
        rcases le_total (a - (x.amount - x.paid_amount)) (fillable xs) with h3 | h3
        · rw [min_eq_left h3, min_eq_left (by linarith)]
          ring
        · rw [min_eq_right h3, min_eq_right (by linarith)]
          ring

theorem fifo_allzero {items : List StudentFeeItem}
    (h : ∀ j ∈ items, j.paid_amount ≤ 0) : FifoFilled items := by
  cases items with
  | nil => trivial
  | cons x xs => exact Or.inr (fun j hj => h j (by simp [hj]))

theorem fifo_apply_allzero {a : ℚ} {items : List StudentFeeItem}
    (hz : ∀ j ∈ items, j.paid_amount ≤ 0) :
    FifoFilled (apply_payment_to_fee_items a items) := by
  induction items generalizing a with
  | nil => trivial
  | cons x xs ih =>
    have hx := hz x (by simp)
    have hxs : ∀ j ∈ xs, j.paid_amount ≤ 0 := fun j hj => hz j (by simp [hj])
    unfold apply_payment_to_fee_items
    split_ifs with h1 h2
    · exact fifo_allzero hz
    · exact Or.inl ⟨by linarith, ih hxs⟩
    · push_neg at h1 h2
      rcases le_total a (x.amount - x.paid_amount) with hle | hle
      · refine Or.inr ?_
        have : a - min a (x.amount - x.paid_amount) = 0 := by
          rw [min_eq_left hle]; ring
        rw [this, apply_nonpos xs le_rfl]
        exact hxs
      · refine Or.inl ⟨?_, ih hxs⟩
        have hmr : min a (x.amount - x.paid_amount) = x.amount - x.paid_amount :=
          min_eq_right hle
        rw [hmr]
        show x.amount ≤ x.paid_amount + (x.amount - x.paid_amount)
        linarith

theorem fifo_apply {a : ℚ} {items : List StudentFeeItem}
    (hf : FifoFilled items) : FifoFilled (apply_payment_to_fee_items a items) := by
  induction items generalizing a with
  | nil => trivial
  | cons x xs ih =>
    unfold apply_payment_to_fee_items
    split_ifs with h1 h2
    · exact hf
    · refine Or.inl ⟨by linarith, ?_⟩
      rcases hf with ⟨-, hfr⟩ | hz
      · exact ih hfr
      · exact fifo_apply_allzero hz
    · push_neg at h1 h2
      rcases hf with ⟨hfull, -⟩ | hz
      · exact absurd hfull (by linarith)
      · rcases le_total a (x.amount - x.paid_amount) with hle | hle
        · refine Or.inr ?_
          have : a - min a (x.amount - x.paid_amount) = 0 := by
            rw [min_eq_left hle]; ring
          rw [this, apply_nonpos xs le_rfl]
          exact hz
        · refine Or.inl ⟨?_, fifo_apply_allzero hz⟩
          have hmr : min a (x.amount - x.paid_amount) = x.amount - x.paid_amount :=
            min_eq_right hle
          rw [hmr]
          show x.amount ≤ x.paid_amount + (x.amount - x.paid_amount)
          linarith

/-! ### Lemmas about the reversal loop -/

/-- Forget an item's `paid_amount` (used to state full-drain results). -/
def zeroPaid (i : StudentFeeItem) : StudentFeeItem := { i with paid_amount := 0 }

theorem apply_cons (a : ℚ) (x : StudentFeeItem) (xs : List StudentFeeItem) :
    apply_payment_to_fee_items a (x :: xs) =
      if a ≤ 0 then x :: xs
      else if x.amount - x.paid_amount ≤ 0 then
        x :: apply_payment_to_fee_items a xs
      else
        { x with paid_amount :=
            x.paid_amount + min a (x.amount - x.paid_amount) } ::
          apply_payment_to_fee_items (a - min a (x.amount - x.paid_amount)) xs :=
  rfl

theorem drain_cons (a : ℚ) (x : StudentFeeItem) (xs : List StudentFeeItem) :
    reverse_payment_on_items a (x :: xs) =
      if a ≤ 0 then x :: xs
      else if x.paid_amount ≤ 0 then x :: reverse_payment_on_items a xs
      else
        { x with paid_amount := x.paid_amount - min a x.paid_amount } ::
          reverse_payment_on_items (a - min a x.paid_amount) xs :=
  rfl

theorem drain_nonpos {a : ℚ} (items : List StudentFeeItem) (h : a ≤ 0) :
    reverse_payment_on_items a items = items := by
  cases items with
  | nil => rfl
  | cons x xs => simp [drain_cons, h]

theorem drain_map_amount (a : ℚ) (items : List StudentFeeItem) :
    (reverse_payment_on_items a items).map (·.amount) = items.map (·.amount) := by
  induction items generalizing a with
  | nil => rfl
  | cons x xs ih =>
    rw [drain_cons]
    split_ifs with h1 h2 <;> simp [ih]

theorem drain_nonneg {a : ℚ} {items : List StudentFeeItem}
    (hnn : ItemsNonneg items) :
    ItemsNonneg (reverse_payment_on_items a items) := by
  induction items generalizing a with
  | nil => exact hnn
  | cons x xs ih =>
    have hx := hnn x (by simp)
    have hxs : ItemsNonneg xs := fun i hi => hnn i (by simp [hi])
    rw [drain_cons]
    split_ifs with h1 h2
    · exact hnn
    · intro i hi
      rcases List.mem_cons.mp hi with rfl | hi
      · exact hx
      · exact ih hxs i hi
    · intro i hi
      rcases List.mem_cons.mp hi with rfl | hi
      · show 0 ≤ x.paid_amount - min a x.paid_amount
        have : min a x.paid_amount ≤ x.paid_amount := min_le_right _ _
        linarith
      · exact ih hxs i hi

theorem drain_bounded {a : ℚ} {items : List StudentFeeItem}
    (hb : ItemsBounded items) :
    ItemsBounded (reverse_payment_on_items a items) := by
  induction items generalizing a with
  | nil => exact hb
  | cons x xs ih =>
    have hx := hb x (by simp)
    have hxs : ItemsBounded xs := fun i hi => hb i (by simp [hi])
    rw [drain_cons]
    split_ifs with h1 h2
    · exact hb
    · intro i hi
      rcases List.mem_cons.mp hi with rfl | hi
      · exact hx
      · exact ih hxs i hi
    · intro i hi
      rcases List.mem_cons.mp hi with rfl | hi
      · show x.paid_amount - min a x.paid_amount ≤ x.amount
        have h3 : (0 : ℚ) ≤ min a x.paid_amount := by
          push_neg at h1 h2
          exact le_min h1.le h2.le
        linarith
      · exact ih hxs i hi

theorem sumPaid_nonneg {items : List StudentFeeItem} (hnn : ItemsNonneg items) :
    0 ≤ sumPaid items := by
  induction items with
  | nil => simp [sumPaid]
  | cons x xs ih =>
    rw [sumPaid_cons]
    have hx := hnn x (by simp)
    have := ih (fun i hi => hnn i (by simp [hi]))
    linarith

theorem mem_le_sumPaid {items : List StudentFeeItem} (hnn : ItemsNonneg items)
    {i : StudentFeeItem} (hi : i ∈ items) : i.paid_amount ≤ sumPaid items := by
  induction items with
  | nil => simp at hi
  | cons y ys ih =>
    rw [sumPaid_cons]
    have hy := hnn y (by simp)
    have hys : ItemsNonneg ys := fun j hj => hnn j (by simp [hj])
    rcases List.mem_cons.mp hi with rfl | hi2
    · have := sumPaid_nonneg hys
      linarith
    · have := ih hys hi2
      linarith

theorem sumPaid_drain {a : ℚ} {items : List StudentFeeItem}
    (hnn : ItemsNonneg items) (h0 : 0 ≤ a) :
    sumPaid (reverse_payment_on_items a items) =
      sumPaid items - min a (sumPaid items) := by
  induction items generalizing a with
  | nil => simp [sumPaid, reverse_payment_on_items, min_eq_right h0]
  | cons x xs ih =>
    have hx := hnn x (by simp)
    have hxs : ItemsNonneg xs := fun i hi => hnn i (by simp [hi])
    rw [drain_cons]
    split_ifs with h1 h2
    · have ha : a = 0 := le_antisymm h1 h0
      rw [ha, min_eq_left (sumPaid_nonneg hnn)]
      ring
    · rw [sumPaid_cons, sumPaid_cons, ih hxs h0]
      have hx0 : x.paid_amount = 0 := le_antisymm h2 hx
      rw [hx0]
      ring_nf
    · push_neg at h2
      rw [sumPaid_cons, sumPaid_cons]
      dsimp only
      rcases le_total a x.paid_amount with hle | hle
      · rw [min_eq_left hle, ih hxs (by linarith)]
        have hs := sumPaid_nonneg hxs
        have e1 : min (a - a) (sumPaid xs) = 0 := by
          rw [sub_self]
          exact min_eq_left hs
        have e2 : min a (x.paid_amount + sumPaid xs) = a :=
          min_eq_left (by linarith)
        rw [e1, e2]
        ring
      · rw [min_eq_right hle, ih hxs (by linarith)]
        rcases le_total (a - x.paid_amount) (sumPaid xs) with h3 | h3
        · rw [min_eq_left h3, min_eq_left (by linarith)]
          ring
        · rw [min_eq_right h3, min_eq_right (by linarith)]
          ring

theorem drain_append {a : ℚ} {l₁ l₂ : List StudentFeeItem}
    (hnn : ItemsNonneg l₁) (h0 : 0 ≤ a) :
    reverse_payment_on_items a (l₁ ++ l₂) =
      reverse_payment_on_items a l₁ ++
        reverse_payment_on_items (a - min a (sumPaid l₁)) l₂ := by
  induction l₁ generalizing a with
  | nil =>
    simp only [List.nil_append, sumPaid, List.map_nil, List.sum_nil,
      min_eq_right h0, sub_zero]
    rfl
  | cons x xs ih =>
    have hx := hnn x (by simp)
    have hxs : ItemsNonneg xs := fun i hi => hnn i (by simp [hi])
    by_cases h1 : a ≤ 0
    · have ha : a = 0 := le_antisymm h1 h0
      rw [ha, min_eq_left (sumPaid_nonneg hnn),
        show (0 : ℚ) - 0 = 0 from by ring]
      rw [drain_nonpos _ le_rfl, drain_nonpos _ le_rfl, drain_nonpos _ le_rfl]
    · by_cases h2 : x.paid_amount ≤ 0
      · have hx0 : x.paid_amount = 0 := le_antisymm h2 hx
        rw [List.cons_append, drain_cons, if_neg h1, if_pos h2,
          drain_cons, if_neg h1, if_pos h2, ih hxs h0,
          sumPaid_cons, hx0, zero_add, List.cons_append]
      · push_neg at h2
        rw [List.cons_append, drain_cons, if_neg h1, if_neg (by linarith),
          drain_cons, if_neg h1, if_neg (by linarith),
          ih hxs (by
            have : min a x.paid_amount ≤ a := min_le_left _ _
            linarith),
          List.cons_append]
        congr 3
        rw [sumPaid_cons]
        rcases le_total a x.paid_amount with hle | hle
        · have hs := sumPaid_nonneg hxs
          rw [min_eq_left hle, min_eq_left (by
            show a - a ≤ sumPaid xs
            linarith), min_eq_left (by linarith)]
          ring
        · rw [min_eq_right hle]
          rcases le_total (a - x.paid_amount) (sumPaid xs) with h3 | h3
          · rw [min_eq_left h3, min_eq_left (by linarith)]
            ring
          · rw [min_eq_right h3, min_eq_right (by linarith)]
            ring

theorem drain_allzero {a : ℚ} {items : List StudentFeeItem}
    (hz : ∀ i ∈ items, i.paid_amount ≤ 0) :
    reverse_payment_on_items a items = items := by
  induction items generalizing a with
  | nil => rfl
  | cons x xs ih =>
    have hx := hz x (by simp)
    have hxs : ∀ i ∈ xs, i.paid_amount ≤ 0 := fun i hi => hz i (by simp [hi])
    rw [drain_cons]
    by_cases h1 : a ≤ 0
    · rw [if_pos h1]
    · rw [if_neg h1, if_pos hx, ih hxs]

theorem map_zeroPaid_of_allzero {items : List StudentFeeItem}
    (hz : ∀ i ∈ items, i.paid_amount = 0) : items.map zeroPaid = items := by
  induction items with
  | nil => rfl
  | cons x xs ih =>
    have hx := hz x (by simp)
    have hzx : zeroPaid x = x := by
      cases x with
      | mk am pa =>
        simp only [zeroPaid]
        simp at hx
        rw [hx]
    rw [List.map_cons, hzx, ih (fun i hi => hz i (by simp [hi]))]

theorem drain_full {a : ℚ} {items : List StudentFeeItem}
    (hnn : ItemsNonneg items) (hge : sumPaid items ≤ a) :
    reverse_payment_on_items a items = items.map zeroPaid := by
  induction items generalizing a with
  | nil => rfl
  | cons x xs ih =>
    have hx := hnn x (by simp)
    have hxs : ItemsNonneg xs := fun i hi => hnn i (by simp [hi])
    have hsx := sumPaid_nonneg hxs
    rw [sumPaid_cons] at hge
    rw [drain_cons]
    split_ifs with h1 h2
    · have hz : ∀ i ∈ x :: xs, i.paid_amount = 0 := by
        intro i hi
        have h4 := mem_le_sumPaid hnn hi
        have h5 := hnn i hi
        rw [sumPaid_cons] at h4
        linarith
      exact (map_zeroPaid_of_allzero hz).symm
    · have hx0 : x.paid_amount = 0 := le_antisymm h2 hx
      rw [List.map_cons, ih hxs (by linarith)]
      congr 1
      cases x with
      | mk am pa =>
        simp only [zeroPaid]
        simp at hx0
        rw [hx0]
    · push_neg at h1 h2
      have hmin : min a x.paid_amount = x.paid_amount :=
        min_eq_right (by linarith)
      rw [hmin, List.map_cons, ih hxs (by linarith)]
      congr 1
      simp [zeroPaid]

/-! ### The reversal as it acts on items in creation order -/

/-- Effect of the reversal loop on a single item. -/
def drainOne (b : ℚ) (x : StudentFeeItem) : StudentFeeItem :=
  if b ≤ 0 then x
  else if x.paid_amount ≤ 0 then x
  else { x with paid_amount := x.paid_amount - min b x.paid_amount }

theorem drain_singleton (b : ℚ) (x : StudentFeeItem) :
    reverse_payment_on_items b [x] = [drainOne b x] := by
  rw [drain_cons]
  unfold drainOne
  split_ifs <;> rfl

theorem drainOne_exact {b : ℚ} (x : StudentFeeItem) (hb : 0 < b)
    (hp : 0 ≤ x.paid_amount) :
    drainOne b { x with paid_amount := x.paid_amount + b } = x := by
  cases x with
  | mk am pa =>
    show drainOne b ⟨am, pa + b⟩ = ⟨am, pa⟩
    unfold drainOne
    split_ifs with h1 h2
    · exact absurd h1 (not_le.mpr hb)
    · dsimp only at h2
      dsimp only at hp
      exact absurd h2 (by push_neg; linarith)
    · dsimp only at hp
      simp only [StudentFeeItem.mk.injEq, true_and]
      rw [min_eq_left (by linarith)]
      ring

theorem sumPaid_reverse (l : List StudentFeeItem) :
    sumPaid l.reverse = sumPaid l := by
  unfold sumPaid
  rw [List.map_reverse, List.sum_reverse]

theorem itemsNonneg_reverse {l : List StudentFeeItem} (h : ItemsNonneg l) :
    ItemsNonneg l.reverse := fun i hi => h i (List.mem_reverse.mp hi)

theorem refund_nonpos {a : ℚ} (items : List StudentFeeItem) (h : a ≤ 0) :
    refundItems a items = items := by
  unfold refundItems
  rw [drain_nonpos _ h, List.reverse_reverse]

theorem refund_allzero {a : ℚ} {items : List StudentFeeItem}
    (hz : ∀ i ∈ items, i.paid_amount ≤ 0) : refundItems a items = items := by
  unfold refundItems
  rw [drain_allzero (fun i hi => hz i (List.mem_reverse.mp hi)),
    List.reverse_reverse]

theorem refund_full {a : ℚ} {items : List StudentFeeItem}
    (hnn : ItemsNonneg items) (hge : sumPaid items ≤ a) :
    refundItems a items = items.map zeroPaid := by
  unfold refundItems
  rw [drain_full (itemsNonneg_reverse hnn) (by rw [sumPaid_reverse]; exact hge),
    ← List.map_reverse, List.reverse_reverse]

theorem refundItems_cons {a : ℚ} {x : StudentFeeItem} {xs : List StudentFeeItem}
    (hnn : ItemsNonneg xs) (h0 : 0 ≤ a) :
    refundItems a (x :: xs) =
      drainOne (a - min a (sumPaid xs)) x :: refundItems a xs := by
  unfold refundItems
  rw [List.reverse_cons, drain_append (itemsNonneg_reverse hnn) h0,
    drain_singleton, List.reverse_append, sumPaid_reverse]
  rfl

theorem refund_map_amount (a : ℚ) (items : List StudentFeeItem) :
    (refundItems a items).map (·.amount) = items.map (·.amount) := by
  unfold refundItems
  rw [List.map_reverse, drain_map_amount, List.map_reverse,
    List.reverse_reverse]

theorem refund_nonneg {a : ℚ} {items : List StudentFeeItem}
    (hnn : ItemsNonneg items) : ItemsNonneg (refundItems a items) := by
  intro i hi
  exact drain_nonneg (itemsNonneg_reverse hnn) i
    (List.mem_reverse.mp (by simpa [refundItems] using hi))

theorem refund_bounded {a : ℚ} {items : List StudentFeeItem}
    (hb : ItemsBounded items) : ItemsBounded (refundItems a items) := by
  intro i hi
  exact drain_bounded (fun j hj => hb j (List.mem_reverse.mp hj)) i
    (List.mem_reverse.mp (by simpa [refundItems] using hi))

theorem sumPaid_refund {a : ℚ} {items : List StudentFeeItem}
    (hnn : ItemsNonneg items) (h0 : 0 ≤ a) :
    sumPaid (refundItems a items) = sumPaid items - min a (sumPaid items) := by
  unfold refundItems
  rw [sumPaid_reverse, sumPaid_drain (itemsNonneg_reverse hnn) h0,
    sumPaid_reverse]

theorem sumPaid_nonpos {items : List StudentFeeItem}
    (hz : ∀ i ∈ items, i.paid_amount ≤ 0) : sumPaid items ≤ 0 := by
  induction items with
  | nil => simp [sumPaid]
  | cons x xs ih =>
    rw [sumPaid_cons]
    have hx := hz x (by simp)
    have := ih (fun i hi => hz i (by simp [hi]))
    linarith

theorem map_zeroPaid_congr {l₁ l₂ : List StudentFeeItem}
    (h : l₁.map (·.amount) = l₂.map (·.amount)) :
    l₁.map zeroPaid = l₂.map zeroPaid := by
  induction l₁ generalizing l₂ with
  | nil =>
    cases l₂ with
    | nil => rfl
    | cons y ys => simp at h
  | cons x xs ih =>
    cases l₂ with
    | nil => simp at h
    | cons y ys =>
      simp only [List.map_cons, List.cons.injEq] at h ⊢
      exact ⟨by simp [zeroPaid, h.1], ih h.2⟩

theorem fifo_refund {a : ℚ} {items : List StudentFeeItem}
    (hnn : ItemsNonneg items) (hf : FifoFilled items) (h0 : 0 ≤ a) :
    FifoFilled (refundItems a items) := by
  induction items with
  | nil => trivial
  | cons x xs ih =>
    have hxs : ItemsNonneg xs := fun i hi => hnn i (by simp [hi])
    rw [refundItems_cons hxs h0]
    rcases hf with ⟨hfull, hfr⟩ | hz
    · by_cases hl : a - min a (sumPaid xs) ≤ 0
      · have hone : drainOne (a - min a (sumPaid xs)) x = x := by
          unfold drainOne
          rw [if_pos hl]
        rw [hone]
        exact Or.inl ⟨hfull, ih hxs hfr⟩
      · have hsle : sumPaid xs ≤ a := by
          rcases le_total a (sumPaid xs) with h | h
          · rw [min_eq_left h] at hl
            exact absurd (by linarith : a - a ≤ 0) hl
          · exact h
        refine Or.inr ?_
        rw [refund_full hxs hsle]
        intro j hj
        rcases List.mem_map.mp hj with ⟨i, -, rfl⟩
        simp [zeroPaid]
    · have hs0 : sumPaid xs = 0 :=
        le_antisymm (sumPaid_nonpos hz) (sumPaid_nonneg hxs)
      rw [refund_allzero hz]
      exact Or.inr hz

/-- Item-level round-trip: filling an amount that fits and immediately
reversing it restores every item, provided the items are in the
first-come-first-filled shape every reachable state has. -/
theorem fill_refund_roundtrip {a : ℚ} {items : List StudentFeeItem}
    (hnn : ItemsNonneg items) (hf : FifoFilled items)
    (h0 : 0 ≤ a) (hle : a ≤ fillable items) :
    refundItems a (apply_payment_to_fee_items a items) = items := by
  induction items generalizing a with
  | nil => rfl
  | cons x xs ih =>
    have hx := hnn x (by simp)
    have hxs : ItemsNonneg xs := fun i hi => hnn i (by simp [hi])
    by_cases ha0 : a ≤ 0
    · have ha : a = 0 := le_antisymm ha0 h0
      rw [ha, apply_nonpos _ le_rfl, refund_nonpos _ le_rfl]
    · by_cases hc : x.amount - x.paid_amount ≤ 0
      · rw [apply_cons, if_neg ha0, if_pos hc]
        have hfxs : FifoFilled xs := by
          rcases hf with ⟨-, hfr⟩ | hz
          · exact hfr
          · exact fifo_allzero hz
        have hfill : a ≤ fillable xs := by
          rw [fillable_cons, max_eq_right hc, zero_add] at hle
          exact hle
        have hnnA : ItemsNonneg (apply_payment_to_fee_items a xs) :=
          apply_nonneg hxs
        rw [refundItems_cons hnnA h0]
        have hsum : sumPaid (apply_payment_to_fee_items a xs) = sumPaid xs + a := by
          rw [sumPaid_apply xs h0, min_eq_left hfill]
        have hmin : min a (sumPaid (apply_payment_to_fee_items a xs)) = a := by
          rw [hsum]
          exact min_eq_left (by
            have := sumPaid_nonneg hxs
            linarith)
        rw [hmin, sub_self]
        have hone : drainOne 0 x = x := by
          unfold drainOne
          rw [if_pos le_rfl]
        rw [hone, ih hxs hfxs h0 hfill]
      · push_neg at hc
        rcases hf with ⟨hfull, -⟩ | hz
        · exact absurd hfull (by linarith)
        · have hs0 : sumPaid xs = 0 :=
            le_antisymm (sumPaid_nonpos hz) (sumPaid_nonneg hxs)
          rw [apply_cons, if_neg ha0, if_neg (not_le.mpr hc)]
          rcases le_total a (x.amount - x.paid_amount) with hle2 | hle2
          · have ht : min a (x.amount - x.paid_amount) = a := min_eq_left hle2
            rw [ht, sub_self, apply_nonpos xs le_rfl, refundItems_cons hxs h0,
              hs0, min_eq_right h0, sub_zero, refund_allzero hz]
            rw [drainOne_exact x (not_le.mp ha0) hx]
          · have ht : min a (x.amount - x.paid_amount) = x.amount - x.paid_amount :=
              min_eq_right hle2
            rw [ht]
            have h0' : 0 ≤ a - (x.amount - x.paid_amount) := by linarith
            have hfill' : a - (x.amount - x.paid_amount) ≤ fillable xs := by
              rw [fillable_cons, max_eq_left hc.le] at hle
              linarith
            have hnnA : ItemsNonneg
                (apply_payment_to_fee_items (a - (x.amount - x.paid_amount)) xs) :=
              apply_nonneg hxs
            rw [refundItems_cons hnnA h0]
            have hsum : sumPaid
                (apply_payment_to_fee_items (a - (x.amount - x.paid_amount)) xs) =
                a - (x.amount - x.paid_amount) := by
              rw [sumPaid_apply xs h0', min_eq_left hfill', hs0, zero_add]
            have hminS : min a (sumPaid
                (apply_payment_to_fee_items (a - (x.amount - x.paid_amount)) xs)) =
                a - (x.amount - x.paid_amount) := by
              rw [hsum]
              exact min_eq_right (by linarith)
            rw [hminS]
            have hlo : a - (a - (x.amount - x.paid_amount)) = x.amount - x.paid_amount := by
              ring
            rw [hlo]
            rw [drainOne_exact x hc hx]
            have hzeq : ∀ i ∈ xs, i.paid_amount = 0 := fun i hi =>
              le_antisymm (hz i hi) (hxs i hi)
            rw [refund_full hnnA (by rw [hsum]; linarith),
              map_zeroPaid_congr (apply_map_amount _ xs),
              map_zeroPaid_of_allzero hzeq]

/-! ### Payments-ledger lemmas -/

theorem sumSuccess_cons (p : PaymentRec) (ps : List PaymentRec) :
    sumSuccess (p :: ps) =
      (if p.status = .success then p.amount else 0) + sumSuccess ps := by
  unfold sumSuccess
  by_cases h : p.status = PaymentStatus.success
  · simp [List.filter_cons, h]
  · simp [List.filter_cons, h]

theorem sumSuccess_append_success (ps : List PaymentRec) (p : PaymentRec)
    (h : p.status = .success) :
    sumSuccess (ps ++ [p]) = sumSuccess ps + p.amount := by
  induction ps with
  | nil => simp [sumSuccess_cons, h, sumSuccess]
  | cons q qs ih =>
    rw [List.cons_append, sumSuccess_cons, ih, sumSuccess_cons]
    ring

theorem sumSuccess_nonneg {ps : List PaymentRec}
    (hpos : ∀ p ∈ ps, 0 < p.amount) : 0 ≤ sumSuccess ps := by
  induction ps with
  | nil => simp [sumSuccess]
  | cons q qs ih =>
    rw [sumSuccess_cons]
    have hq := hpos q (by simp)
    have := ih (fun p hp => hpos p (by simp [hp]))
    split_ifs <;> linarith

theorem mem_success_le_sumSuccess {ps : List PaymentRec} {q : PaymentRec}
    (hpos : ∀ p ∈ ps, 0 < p.amount) (hq : q ∈ ps) (hs : q.status = .success) :
    q.amount ≤ sumSuccess ps := by
  induction ps with
  | nil => simp at hq
  | cons r rs ih =>
    rw [sumSuccess_cons]
    have hrs : ∀ p ∈ rs, 0 < p.amount := fun p hp => hpos p (by simp [hp])
    rcases List.mem_cons.mp hq with rfl | hq2
    · rw [if_pos hs]
      have := sumSuccess_nonneg hrs
      linarith
    · have := ih hrs hq2
      have hr := hpos r (by simp)
      split_ifs <;> linarith

theorem sumSuccess_updateFirst_refund {ps : List PaymentRec} {pid : String}
    {q : PaymentRec} (hfind : ps.find? (fun p => p.id == pid) = some q)
    (hs : q.status = .success) :
    sumSuccess (updateFirst (fun p => p.id == pid)
        (fun p => { p with status := .refunded }) ps) =
      sumSuccess ps - q.amount := by
  induction ps with
  | nil => simp at hfind
  | cons r rs ih =>
    by_cases hr : (r.id == pid) = true
    · have hpos : List.find? (fun p => p.id == pid) (r :: rs) = some r :=
        List.find?_cons_of_pos rs hr
      rw [hpos] at hfind
      cases hfind
      unfold updateFirst
      rw [if_pos hr, sumSuccess_cons, sumSuccess_cons, if_pos hs]
      have hstat : ({ q with status := PaymentStatus.refunded } : PaymentRec).status =
          PaymentStatus.refunded := rfl
      rw [if_neg (by rw [hstat]; intro hcon; cases hcon)]
      ring
    · have hneg : List.find? (fun p => p.id == pid) (r :: rs) =
          List.find? (fun p => p.id == pid) rs :=
        List.find?_cons_of_neg rs (by simpa using hr)
      rw [hneg] at hfind
      unfold updateFirst
      rw [if_neg hr, sumSuccess_cons, sumSuccess_cons, ih hfind]
      ring

theorem mem_updateFirst {p : α → Bool} {f : α → α} {l : List α} {x : α}
    (hx : x ∈ updateFirst p f l) : x ∈ l ∨ ∃ y ∈ l, x = f y := by
  induction l with
  | nil => simp [updateFirst] at hx
  | cons z zs ih =>
    unfold updateFirst at hx
    split_ifs at hx with hz
    · rcases List.mem_cons.mp hx with rfl | hx2
      · exact Or.inr ⟨z, by simp, rfl⟩
      · exact Or.inl (by simp [hx2])
    · rcases List.mem_cons.mp hx with rfl | hx2
      · exact Or.inl (by simp)
      · rcases ih hx2 with h | ⟨y, hy, rfl⟩
        · exact Or.inl (by simp [h])
        · exact Or.inr ⟨y, by simp [hy], rfl⟩

theorem find?_append_right {p : α → Bool} {l₁ l₂ : List α}
    (h : l₁.find? p = none) : (l₁ ++ l₂).find? p = l₂.find? p := by
  induction l₁ with
  | nil => rfl
  | cons x xs ih =>
    have hx : ¬ p x = true := by
      intro hpx
      have hsome : List.find? p (x :: xs) = some x := List.find?_cons_of_pos xs hpx
      rw [hsome] at h
      cases h
    have hxs : xs.find? p = none := by
      have heq : List.find? p (x :: xs) = List.find? p xs :=
        List.find?_cons_of_neg xs (by simpa using hx)
      rw [heq] at h
      exact h
    rw [List.cons_append]
    have heq2 : List.find? p (x :: (xs ++ l₂)) = List.find? p (xs ++ l₂) :=
      List.find?_cons_of_neg _ (by simpa using hx)
    rw [heq2]
    exact ih hxs

/-! ### Sum bookkeeping over items -/

theorem sumAmount_cons (x : StudentFeeItem) (xs : List StudentFeeItem) :
    sumAmount (x :: xs) = x.amount + sumAmount xs := by
  simp [sumAmount]

theorem fillable_ge_remaining (l : List StudentFeeItem) :
    sumAmount l - sumPaid l ≤ fillable l := by
  induction l with
  | nil => simp [sumAmount, sumPaid, fillable]
  | cons x xs ih =>
    rw [sumAmount_cons, sumPaid_cons, fillable_cons]
    have : x.amount - x.paid_amount ≤ max (x.amount - x.paid_amount) 0 :=
      le_max_left _ _
    linarith

theorem remaining_nonneg_of_bounded {l : List StudentFeeItem}
    (hb : ItemsBounded l) : 0 ≤ sumAmount l - sumPaid l := by
  induction l with
  | nil => simp [sumAmount, sumPaid]
  | cons x xs ih =>
    rw [sumAmount_cons, sumPaid_cons]
    have hx := hb x (by simp)
    have := ih (fun i hi => hb i (by simp [hi]))
    linarith

theorem sumAmount_eq_of_map_amount {l₁ l₂ : List StudentFeeItem}
    (h : l₁.map (·.amount) = l₂.map (·.amount)) : sumAmount l₁ = sumAmount l₂ := by
  unfold sumAmount
  rw [h]

/-! ### Invariant establishment and preservation -/

theorem assign_invariant (sid fsid : String) (comps : List ℚ) (due : Option ℤ) :
    FeeInvariant (assign_student_fee sid fsid comps due) := by
  refine ⟨?_, ?_, ?_, ?_, ?_, ?_⟩
  · intro i hi
    rcases List.mem_map.mp hi with ⟨c, -, rfl⟩
    exact le_rfl
  · show sumPaid (comps.map fun a => { amount := a, paid_amount := 0 }) = 0
    unfold sumPaid
    rw [List.map_map]
    induction comps with
    | nil => rfl
    | cons c cs ih => simpa using ih
  · show sumAmount (comps.map fun a => { amount := a, paid_amount := 0 }) = comps.sum
    unfold sumAmount
    rw [List.map_map]
    induction comps with
    | nil => rfl
    | cons c cs ih => simpa using ih
  · exact fifo_allzero (by
      intro j hj
      rcases List.mem_map.mp hj with ⟨c, -, rfl⟩
      exact le_rfl)
  · rfl
  · intro p hp
    simp [assign_student_fee] at hp

theorem create_payment_invariant {today : ℤ} {pid method : String}
    {sf sf' : StudentFee} {a : ℚ} (hinv : FeeInvariant sf)
    (h : create_payment today pid sf a method = .ok sf') : FeeInvariant sf' := by
  unfold create_payment at h
  split_ifs at h with h1 h2 h3
  cases h
  push_neg at h1 h3
  have hfill : a ≤ fillable sf.items := by
    have h5 := fillable_ge_remaining sf.items
    rw [hinv.paid_eq_sum, hinv.total_eq_sum] at h5
    linarith
  refine ⟨?_, ?_, ?_, ?_, ?_, ?_⟩
  · exact apply_nonneg hinv.items_nonneg
  · show sumPaid (apply_payment_to_fee_items a sf.items) = sf.paid_amount + a
    rw [sumPaid_apply sf.items h1.le, min_eq_left hfill, hinv.paid_eq_sum]
  · show sumAmount (apply_payment_to_fee_items a sf.items) = sf.total_amount
    rw [sumAmount_eq_of_map_amount (apply_map_amount a sf.items),
      hinv.total_eq_sum]
  · exact fifo_apply hinv.fifo
  · show sumSuccess (sf.payments ++ [⟨pid, a, method, .success⟩]) = sf.paid_amount + a
    rw [sumSuccess_append_success _ _ rfl, hinv.success_sum]
  · intro p hp
    rcases List.mem_append.mp hp with hp | hp
    · exact hinv.pay_pos p hp
    · rcases List.mem_singleton.mp hp with rfl
      exact h1

theorem refund_payment_invariant {today : ℤ} {pid : String} {sf sf' : StudentFee}
    (hinv : FeeInvariant sf) (h : refund_payment today pid sf = .ok sf') :
    FeeInvariant sf' := by
  unfold refund_payment at h
  cases hfind : sf.payments.find? (fun q => q.id == pid) with
  | none => rw [hfind] at h; cases h
  | some payment =>
    rw [hfind] at h
    dsimp only at h
    split_ifs at h with h1 h2
    cases h
    push_neg at h2
    have hmem : payment ∈ sf.payments := List.mem_of_find?_eq_some hfind
    have hpos : 0 < payment.amount := hinv.pay_pos payment hmem
    have hle : payment.amount ≤ sf.paid_amount := by
      rw [← hinv.success_sum]
      exact mem_success_le_sumSuccess hinv.pay_pos hmem h2
    refine ⟨?_, ?_, ?_, ?_, ?_, ?_⟩
    · exact refund_nonneg hinv.items_nonneg
    · show sumPaid (refundItems payment.amount sf.items) =
        sf.paid_amount - payment.amount
      rw [sumPaid_refund hinv.items_nonneg hpos.le, hinv.paid_eq_sum,
        min_eq_left hle]
    · show sumAmount (refundItems payment.amount sf.items) = sf.total_amount
      rw [sumAmount_eq_of_map_amount (refund_map_amount _ sf.items),
        hinv.total_eq_sum]
    · exact fifo_refund hinv.items_nonneg hinv.fifo hpos.le
    · show sumSuccess (updateFirst (fun q => q.id == pid)
          (fun q => { q with status := .refunded }) sf.payments) =
        sf.paid_amount - payment.amount
      rw [sumSuccess_updateFirst_refund hfind h2, hinv.success_sum]
    · intro p hp
      rcases mem_updateFirst hp with hp2 | ⟨y, hy, rfl⟩
      · exact hinv.pay_pos p hp2
      · exact hinv.pay_pos y hy

theorem feeStep_invariant {sf sf' : StudentFee} (hinv : FeeInvariant sf)
    (h : FeeStep sf sf') : FeeInvariant sf' := by
  cases h with
  | pay today pid method amount sf sf' hc => exact create_payment_invariant hinv hc
  | refund today pid sf sf' hr => exact refund_payment_invariant hinv hr

theorem reachable_invariant {sf : StudentFee} (h : FeeReachable sf) :
    FeeInvariant sf := by
  obtain ⟨sid, fsid, comps, due, hr⟩ := h
  induction hr with
  | refl => exact assign_invariant sid fsid comps due
  | tail hab hbc ih => exact feeStep_invariant ih hbc

theorem assign_bounded {sid fsid : String} {comps : List ℚ} {due : Option ℤ}
    (hNN : ∀ c ∈ comps, (0 : ℚ) ≤ c) :
    ItemsBounded (assign_student_fee sid fsid comps due).items := by
  intro i hi
  rcases List.mem_map.mp hi with ⟨c, hc, rfl⟩
  exact hNN c hc

theorem feeStep_bounded {sf sf' : StudentFee} (hb : ItemsBounded sf.items)
    (h : FeeStep sf sf') : ItemsBounded sf'.items := by
  cases h with
  | pay today pid method amount sf sf' hc =>
    unfold create_payment at hc
    split_ifs at hc with h1 h2 h3
    cases hc
    exact apply_bounded hb
  | refund today pid sf sf' hr =>
    unfold refund_payment at hr
    cases hfind : sf.payments.find? (fun q => q.id == pid) with
    | none => rw [hfind] at hr; cases hr
    | some payment =>
      rw [hfind] at hr
      dsimp only at hr
      split_ifs at hr with h1 h2
      cases hr
      exact refund_bounded hb

theorem reachableNN_bounded {sf : StudentFee} (h : FeeReachableNN sf) :
    ItemsBounded sf.items := by
  obtain ⟨sid, fsid, comps, due, hNN, hr⟩ := h
  induction hr with
  | refl => exact assign_bounded hNN
  | tail hab hbc ih => exact feeStep_bounded ih hbc

/-- C3 counterexample: `create_fee_structure` never validates component
amounts, so bulk assignment of a structure with a negative component
creates a reachable obligation with `total_amount = -5 < 0 =
paid_amount`, violating `0 ≤ paid_amount ≤ total_amount`. -/
theorem fee_invariant_counterexample :
    FeeReachable (assign_student_fee "s1" "fs1" [(-5 : ℚ)] none) ∧
    ¬ ((assign_student_fee "s1" "fs1" [(-5 : ℚ)] none).paid_amount ≤
        (assign_student_fee "s1" "fs1" [(-5 : ℚ)] none).total_amount) := by
  refine ⟨⟨"s1", "fs1", [(-5 : ℚ)], none, Relation.ReflTransGen.refl⟩, ?_⟩
  norm_num [assign_student_fee]

/-- C3 amended: provided the structure's component amounts are all
nonnegative, every state reachable by bulk assignment followed by
accepted payments and refunds satisfies `0 ≤ paid_amount ≤ total_amount`
and the sum of the items' `paid_amount` equals the obligation's
`paid_amount`; assignment establishes `total_amount = sum of component
amounts` with every `paid_amount` zero. -/
theorem reachable_fee_invariant (sf : StudentFee) (h : FeeReachableNN sf) :
    (0 ≤ sf.paid_amount ∧ sf.paid_amount ≤ sf.total_amount ∧
      sumPaid sf.items = sf.paid_amount) ∧
    (∀ sid fsid comps due,
      (assign_student_fee sid fsid comps due).total_amount = comps.sum ∧
      (assign_student_fee sid fsid comps due).paid_amount = 0 ∧
      ∀ i ∈ (assign_student_fee sid fsid comps due).items, i.paid_amount = 0) := by
  constructor
  · have hR : FeeReachable sf := by
      obtain ⟨sid, fsid, c, d, hnn, hr⟩ := h
      exact ⟨sid, fsid, c, d, hr⟩
    have hinv := reachable_invariant hR
    have hb := reachableNN_bounded h
    have h1 : 0 ≤ sumPaid sf.items := sumPaid_nonneg hinv.items_nonneg
    have h2 := remaining_nonneg_of_bounded hb
    have e1 := hinv.paid_eq_sum
    have e2 := hinv.total_eq_sum
    exact ⟨by linarith, by linarith, e1⟩
  · intro sid fsid comps due
    refine ⟨rfl, rfl, ?_⟩
    intro i hi
    rcases List.mem_map.mp hi with ⟨c, -, rfl⟩
    rfl

/-- Witness for `reachable_fee_invariant`: the invariant holds for a
freshly assigned obligation with one component of 3. -/
theorem reachable_fee_invariant_witness :
    0 ≤ (assign_student_fee "s" "f" [(3 : ℚ)] none).paid_amount ∧
    (assign_student_fee "s" "f" [(3 : ℚ)] none).paid_amount ≤
      (assign_student_fee "s" "f" [(3 : ℚ)] none).total_amount ∧
    sumPaid (assign_student_fee "s" "f" [(3 : ℚ)] none).items =
      (assign_student_fee "s" "f" [(3 : ℚ)] none).paid_amount :=
  (reachable_fee_invariant (assign_student_fee "s" "f" [(3 : ℚ)] none)
    ⟨"s", "f", [(3 : ℚ)], none, by decide, Relation.ReflTransGen.refl⟩).1

/-- C4 counterexample: bulk assignment sets `status = 'unpaid'` directly;
with a due date already in the past the pure status function yields
`'overdue'`, so after this operation the stored status differs from the
function of the stored state. -/
theorem status_function_counterexample :
    FeeReachable (assign_student_fee "s1" "fs1" [(10 : ℚ)] (some (-1))) ∧
    (assign_student_fee "s1" "fs1" [(10 : ℚ)] (some (-1))).status =
      StudentFeeStatus.unpaid ∧
    statusOf (assign_student_fee "s1" "fs1" [(10 : ℚ)] (some (-1))).total_amount
      (assign_student_fee "s1" "fs1" [(10 : ℚ)] (some (-1))).paid_amount
      (assign_student_fee "s1" "fs1" [(10 : ℚ)] (some (-1))).due_date 0 =
      StudentFeeStatus.overdue ∧
    StudentFeeStatus.unpaid ≠ StudentFeeStatus.overdue := by
  refine ⟨⟨"s1", "fs1", [(10 : ℚ)], some (-1), Relation.ReflTransGen.refl⟩, rfl, ?_, by decide⟩
  norm_num [assign_student_fee, statusOf]

/-- C4 amended: the status function is pure and idempotent and is re-run
by the payment and refund mutations, so after those operations the
stored status equals the function of the stored state and the current
day; bulk assignment, however, sets the status directly to `'unpaid'`
(which coincides with the function only when the due date has not
passed). -/
theorem status_recalculated_spec :
    (∀ (today : ℤ) (sf : StudentFee),
      recalculate_student_fee_status today (recalculate_student_fee_status today sf) =
        recalculate_student_fee_status today sf) ∧
    (∀ (today : ℤ) (pid method : String) (sf sf' : StudentFee) (a : ℚ),
      create_payment today pid sf a method = .ok sf' →
      sf'.status = statusOf sf'.total_amount sf'.paid_amount sf'.due_date today) ∧
    (∀ (today : ℤ) (pid : String) (sf sf' : StudentFee),
      refund_payment today pid sf = .ok sf' →
      sf'.status = statusOf sf'.total_amount sf'.paid_amount sf'.due_date today) ∧
    (∀ (sid fsid : String) (comps : List ℚ) (due : Option ℤ),
      (assign_student_fee sid fsid comps due).status = .unpaid) := by
  refine ⟨?_, ?_, ?_, ?_⟩
  · intro today sf
    rfl
  · intro today pid method sf sf' a hc
    unfold create_payment at hc
    split_ifs at hc with h1 h2 h3
    cases hc
    rfl
  · intro today pid sf sf' hr
    unfold refund_payment at hr
    cases hfind : sf.payments.find? (fun q => q.id == pid) with
    | none => rw [hfind] at hr; cases hr
    | some payment =>
      rw [hfind] at hr
      dsimp only at hr
      split_ifs at hr with h1 h2
      cases hr
      rfl
  · intro sid fsid comps due
    rfl

/-- Witness for `status_recalculated_spec`: after a concrete accepted
payment the stored status equals the status function of the stored
state. -/
theorem status_recalculated_spec_witness :
    (⟨"s", "f", 10, 5, none, .partialPaid, [⟨10, 5⟩],
      [⟨"p1", 5, "cash", .success⟩]⟩ : StudentFee).status =
      statusOf (10 : ℚ) 5 none 0 :=
  status_recalculated_spec.2.1 0 "p1" "cash"
    (assign_student_fee "s" "f" [(10 : ℚ)] none)
    (⟨"s", "f", 10, 5, none, .partialPaid, [⟨10, 5⟩],
      [⟨"p1", 5, "cash", .success⟩]⟩ : StudentFee) 5 (by
      norm_num [create_payment, assign_student_fee, paymentMethods,
        apply_cons, apply_payment_to_fee_items,
        recalculate_student_fee_status, statusOf,
        List.contains, List.elem])

/-- C5: in any reachable state, an accepted payment of amount `A` with a
fresh payment id, immediately refunded (with no intervening mutation),
is accepted by the refund and restores the obligation's `paid_amount`
and every item's `paid_amount` to their pre-payment values. -/
theorem payment_refund_roundtrip (sf : StudentFee) (h : FeeReachable sf)
    (today today' : ℤ) (pid method : String) (amount : ℚ) (sf' : StudentFee)
    (hfresh : ∀ q ∈ sf.payments, q.id ≠ pid)
    (hc : create_payment today pid sf amount method = .ok sf') :
    ∃ sf'', refund_payment today' pid sf' = .ok sf'' ∧
      sf''.paid_amount = sf.paid_amount ∧ sf''.items = sf.items := by
  have hinv := reachable_invariant h
  unfold create_payment at hc
  split_ifs at hc with h1 h2 h3
  cases hc
  push_neg at h1 h3
  have hnone : sf.payments.find? (fun q => q.id == pid) = none := by
    rw [List.find?_eq_none]
    intro q hq
    simpa using hfresh q hq
  have hfind : (sf.payments ++
      [⟨pid, amount, method, .success⟩] : List PaymentRec).find?
      (fun q => q.id == pid) = some ⟨pid, amount, method, .success⟩ := by
    rw [find?_append_right hnone]
    exact List.find?_cons_of_pos _ (by simp)
  have hfind2 : (recalculate_student_fee_status today
      { sf with
        payments := sf.payments ++ [⟨pid, amount, method, .success⟩],
        items := apply_payment_to_fee_items amount sf.items,
        paid_amount := sf.paid_amount + amount }).payments.find?
      (fun q => q.id == pid) = some ⟨pid, amount, method, .success⟩ := hfind
  have hrefund : refund_payment today' pid (recalculate_student_fee_status today
      { sf with
        payments := sf.payments ++ [⟨pid, amount, method, .success⟩],
        items := apply_payment_to_fee_items amount sf.items,
        paid_amount := sf.paid_amount + amount }) = .ok
      (recalculate_student_fee_status today'
        { sf with
          payments := updateFirst (fun q => q.id == pid)
            (fun q => { q with status := .refunded })
            (sf.payments ++ [⟨pid, amount, method, .success⟩]),
          items := refundItems amount (apply_payment_to_fee_items amount sf.items),
          paid_amount := sf.paid_amount + amount - amount }) := by
    unfold refund_payment
    rw [hfind2]
    dsimp only
    rw [if_neg (by intro hcon; cases hcon), if_neg (by simp)]
    rfl
  refine ⟨_, hrefund, ?_, ?_⟩
  · show sf.paid_amount + amount - amount = sf.paid_amount
    ring
  · show refundItems amount
      (apply_payment_to_fee_items amount sf.items) = sf.items
    have hfill : amount ≤ fillable sf.items := by
      have h5 := fillable_ge_remaining sf.items
      have e1 := hinv.paid_eq_sum
      have e2 := hinv.total_eq_sum
      linarith
    exact fill_refund_roundtrip hinv.items_nonneg hinv.fifo h1.le hfill

/-- Witness for `payment_refund_roundtrip`: a payment of 4 against a
fresh obligation of 10, then its refund, restores `paid_amount = 0` and
the single item. -/
theorem payment_refund_roundtrip_witness :
    ∃ sf'', refund_payment 0 "p1"
        (⟨"s", "f", 10, 4, none, .partialPaid, [⟨10, 4⟩],
          [⟨"p1", 4, "cash", .success⟩]⟩ : StudentFee) = .ok sf'' ∧
      sf''.paid_amount = (assign_student_fee "s" "f" [(10 : ℚ)] none).paid_amount ∧
      sf''.items = (assign_student_fee "s" "f" [(10 : ℚ)] none).items :=
  payment_refund_roundtrip (assign_student_fee "s" "f" [(10 : ℚ)] none)
    ⟨"s", "f", [(10 : ℚ)], none, Relation.ReflTransGen.refl⟩ 0 0 "p1" "cash" 4
    (⟨"s", "f", 10, 4, none, .partialPaid, [⟨10, 4⟩],
      [⟨"p1", 4, "cash", .success⟩]⟩ : StudentFee)
    (by intro q hq; simp [assign_student_fee] at hq) (by
      norm_num [create_payment, assign_student_fee, paymentMethods,
        apply_cons, apply_payment_to_fee_items,
        recalculate_student_fee_status, statusOf,
        List.contains, List.elem])

/-! ### C7: order of allocation and reversal, in closed form -/

/-- Remaining capacity of the items before position `i` (what the
allocation loop fills before it reaches position `i`). -/
def capBefore (items : List StudentFeeItem) (i : ℕ) : ℚ :=
  fillable (items.take i)

/-- Paid amount on the items after position `i` (what the reversal loop
drains before it reaches position `i`, working backwards). -/
def paidAfter (items : List StudentFeeItem) (i : ℕ) : ℚ :=
  sumPaid (items.drop (i + 1))

theorem max_min_nonpos (item : StudentFeeItem) {r : ℚ} (hr : r ≤ 0) :
    max 0 (min (item.amount - item.paid_amount) r) = 0 :=
  max_eq_left (le_trans (min_le_right _ _) hr)

theorem item_add_eta (x : StudentFeeItem) (v : ℚ) (hv : v = 0) :
    ({ x with paid_amount := x.paid_amount + v } : StudentFeeItem) = x := by
  cases x with
  | mk am pa =>
    rw [hv]
    simp

theorem item_sub_eta (x : StudentFeeItem) (v : ℚ) (hv : v = 0) :
    ({ x with paid_amount := x.paid_amount - v } : StudentFeeItem) = x := by
  cases x with
  | mk am pa =>
    rw [hv]
    simp

theorem capBefore_zero (items : List StudentFeeItem) : capBefore items 0 = 0 := by
  simp [capBefore, fillable]

theorem capBefore_cons (x : StudentFeeItem) (xs : List StudentFeeItem) (i : ℕ) :
    capBefore (x :: xs) (i + 1) =
      max (x.amount - x.paid_amount) 0 + capBefore xs i := by
  simp [capBefore, List.take_succ_cons, fillable_cons]

theorem capBefore_nonneg (items : List StudentFeeItem) (i : ℕ) :
    0 ≤ capBefore items i := fillable_nonneg _

theorem apply_get? (items : List StudentFeeItem) (a : ℚ) (i : ℕ) (h0 : 0 ≤ a) :
    (apply_payment_to_fee_items a items).get? i =
      (items.get? i).map (fun item =>
        { item with paid_amount := item.paid_amount + max 0 (min (item.amount - item.paid_amount) (a - capBefore items i)) }) := by
  induction items generalizing a i with
  | nil => simp [apply_payment_to_fee_items]
  | cons x xs ih =>
    by_cases ha : a ≤ 0
    · have ha0 : a = 0 := le_antisymm ha h0
      subst ha0
      rw [apply_nonpos _ le_rfl]
      cases i with
      | zero =>
        simp only [List.get?_cons_zero, Option.map_some', capBefore_zero, sub_zero]
        rw [item_add_eta _ _ (max_min_nonpos x le_rfl)]
      | succ i =>
        simp only [List.get?_cons_succ, capBefore_cons]
        cases hxs : xs.get? i with
        | none => rfl
        | some it =>
          simp only [Option.map_some', Option.some.injEq]
          have hr : (0 : ℚ) - (max (x.amount - x.paid_amount) 0 + capBefore xs i) ≤ 0 := by
            have h4 : (0 : ℚ) ≤ max (x.amount - x.paid_amount) 0 := le_max_right _ _
            have h5 := capBefore_nonneg xs i
            linarith
          exact (item_add_eta _ _ (max_min_nonpos it hr)).symm
    · by_cases hc : x.amount - x.paid_amount ≤ 0
      · rw [apply_cons, if_neg ha, if_pos hc]
        cases i with
        | zero =>
          simp only [List.get?_cons_zero, Option.map_some', Option.some.injEq,
            capBefore_zero, sub_zero]
          have h5 : max 0 (min (x.amount - x.paid_amount) a) = 0 :=
            max_eq_left (le_trans (min_le_left _ _) hc)
          rw [item_add_eta _ _ h5]
        | succ i =>
          simp only [List.get?_cons_succ, capBefore_cons, max_eq_right hc, zero_add]
          exact ih a i h0
      · rw [apply_cons, if_neg ha, if_neg hc]
        push_neg at ha hc
        cases i with
        | zero =>
          simp only [List.get?_cons_zero, Option.map_some', Option.some.injEq,
            capBefore_zero, sub_zero]
          have h5 : max 0 (min (x.amount - x.paid_amount) a) =
              min (x.amount - x.paid_amount) a :=
            max_eq_right (le_min hc.le ha.le)
          rw [h5, min_comm a (x.amount - x.paid_amount)]
        | succ i =>
          simp only [List.get?_cons_succ, capBefore_cons, max_eq_left hc.le]
          have ht : min a (x.amount - x.paid_amount) ≤ a := min_le_left _ _
          rw [ih (a - min a (x.amount - x.paid_amount)) i (by linarith)]
          rcases le_total a (x.amount - x.paid_amount) with hle | hle
          · cases hxs : xs.get? i with
            | none => rfl
            | some it =>
              simp only [Option.map_some', Option.some.injEq]
              have hr1 : a - min a (x.amount - x.paid_amount) - capBefore xs i ≤ 0 := by
                rw [min_eq_left hle]
                have := capBefore_nonneg xs i
                linarith
              have hr2 : a - (x.amount - x.paid_amount + capBefore xs i) ≤ 0 := by
                have := capBefore_nonneg xs i
                linarith
              rw [item_add_eta _ _ (max_min_nonpos it hr1),
                item_add_eta _ _ (max_min_nonpos it hr2)]
          · have harg : a - min a (x.amount - x.paid_amount) - capBefore xs i =
                a - (x.amount - x.paid_amount + capBefore xs i) := by
              rw [min_eq_right hle]
              ring
            rw [harg]

theorem refund_get? (items : List StudentFeeItem) (a : ℚ) (i : ℕ)
    (hnn : ItemsNonneg items) (h0 : 0 ≤ a) :
    (refundItems a items).get? i =
      (items.get? i).map (fun item =>
        { item with paid_amount := item.paid_amount - max 0 (min item.paid_amount (a - paidAfter items i)) }) := by
  induction items generalizing i with
  | nil => simp [refundItems, reverse_payment_on_items]
  | cons x xs ih =>
    have hxs : ItemsNonneg xs := fun j hj => hnn j (by simp [hj])
    rw [refundItems_cons hxs h0]
    cases i with
    | zero =>
      simp only [List.get?_cons_zero, Option.map_some', Option.some.injEq]
      have hpa : paidAfter (x :: xs) 0 = sumPaid xs := rfl
      have hS : 0 ≤ sumPaid xs := sumPaid_nonneg hxs
      rcases le_total a (sumPaid xs) with hle | hle
      · rw [min_eq_left hle]
        have h6 : drainOne (a - a) x = x := by
          unfold drainOne
          rw [if_pos (by linarith)]
        rw [h6, hpa]
        have hr : a - sumPaid xs ≤ 0 := by linarith
        exact (item_sub_eta _ _
          (max_eq_left (le_trans (min_le_right _ _) hr))).symm
      · rw [min_eq_right hle, hpa]
        by_cases hl : a - sumPaid xs ≤ 0
        · have h6 : drainOne (a - sumPaid xs) x = x := by
            unfold drainOne
            rw [if_pos hl]
          rw [h6]
          have hl0 : a - sumPaid xs = 0 := le_antisymm hl (by linarith)
          rw [hl0]
          exact (item_sub_eta _ _ (max_eq_left (min_le_right _ _))).symm
        · push_neg at hl
          by_cases hp : x.paid_amount ≤ 0
          · have h6 : drainOne (a - sumPaid xs) x = x := by
              unfold drainOne
              rw [if_neg (not_le.mpr hl), if_pos hp]
            rw [h6]
            exact (item_sub_eta _ _
              (max_eq_left (le_trans (min_le_left _ _) hp))).symm
          · push_neg at hp
            have h6 : drainOne (a - sumPaid xs) x =
                { x with paid_amount := x.paid_amount - min (a - sumPaid xs) x.paid_amount } := by
              unfold drainOne
              rw [if_neg (not_le.mpr hl), if_neg (not_le.mpr hp)]
            rw [h6]
            have h7 : max 0 (min x.paid_amount (a - sumPaid xs)) =
                min (a - sumPaid xs) x.paid_amount := by
              rw [min_comm]
              exact max_eq_right (le_min hl.le hp.le)
            rw [h7]
    | succ i =>
      simp only [List.get?_cons_succ]
      exact ih i hxs

theorem fillable_eq_of_bounded {l : List StudentFeeItem} (hb : ItemsBounded l) :
    fillable l = (l.map (fun j => j.amount - j.paid_amount)).sum := by
  induction l with
  | nil => rfl
  | cons x xs ih =>
    rw [fillable_cons, List.map_cons, List.sum_cons,
      ih (fun j hj => hb j (by simp [hj])), max_eq_left]
    have := hb x (by simp)
    linarith

/-- C7: the allocation loop assigns item `i` exactly
`max 0 (min (capacity of i) (A - capacity of the items before i))` —
first-come-first-filled in creation order, each item's remaining
capacity filled completely before any amount reaches the next item —
and the reversal loop removes from item `i` exactly
`max 0 (min (paid of i) (A - paid on the items after i))` — reverse
creation order, each item drained to its floor of zero before the
previous item is touched. -/
theorem allocation_order_spec :
    (∀ (items : List StudentFeeItem) (a : ℚ) (i : ℕ),
      ItemsBounded items → 0 ≤ a →
      (apply_payment_to_fee_items a items).get? i =
        (items.get? i).map (fun item =>
          { item with paid_amount := item.paid_amount + max 0 (min (item.amount - item.paid_amount) (a - ((items.take i).map (fun j => j.amount - j.paid_amount)).sum)) })) ∧
    (∀ (items : List StudentFeeItem) (a : ℚ) (i : ℕ),
      ItemsNonneg items → 0 ≤ a →
      (refundItems a items).get? i =
        (items.get? i).map (fun item =>
          { item with paid_amount := item.paid_amount - max 0 (min item.paid_amount (a - sumPaid (items.drop (i + 1)))) })) := by
  constructor
  · intro items a i hb h0
    rw [apply_get? items a i h0]
    have hcap : capBefore items i =
        ((items.take i).map (fun j => j.amount - j.paid_amount)).sum := by
      unfold capBefore
      exact fillable_eq_of_bounded (fun j hj => hb j (List.take_subset _ _ hj))
    rw [hcap]
  · intro items a i hnn h0
    exact refund_get? items a i hnn h0

/-- Witness for `allocation_order_spec`: two items of capacity 10 and 5,
a payment of 12 and a reversal of 12 at index 1. -/
theorem allocation_order_spec_witness :
    ((apply_payment_to_fee_items 12 [⟨10, 0⟩, ⟨5, 0⟩]).get? 1 =
      (([(⟨10, 0⟩ : StudentFeeItem), ⟨5, 0⟩]).get? 1).map (fun item =>
        { item with paid_amount := item.paid_amount + max 0 (min (item.amount - item.paid_amount) (12 - ((([(⟨10, 0⟩ : StudentFeeItem), ⟨5, 0⟩]).take 1).map (fun j => j.amount - j.paid_amount)).sum)) })) ∧
    ((refundItems 12 [⟨10, 10⟩, ⟨5, 2⟩]).get? 1 =
      (([(⟨10, 10⟩ : StudentFeeItem), ⟨5, 2⟩]).get? 1).map (fun item =>
        { item with paid_amount := item.paid_amount - max 0 (min item.paid_amount (12 - sumPaid (([(⟨10, 10⟩ : StudentFeeItem), ⟨5, 2⟩]).drop 2))) })) :=
  ⟨allocation_order_spec.1 [⟨10, 0⟩, ⟨5, 0⟩] 12 1
      (by intro j hj; fin_cases hj <;> norm_num) (by norm_num),
    allocation_order_spec.2 [⟨10, 10⟩, ⟨5, 2⟩] 12 1
      (by intro j hj; fin_cases hj <;> norm_num) (by norm_num)⟩

/-! ### Tenant-scoped persistence layer for the ledger

The service-level operations of
`finance/services/student_fee_service.py` and
`finance/services/payment_service.py` as they act on the `student_fees`
table: every query carries the explicit `tenant_id = get_tenant_id()`
filter of the source.  A row bundles the obligation with its items and
payments (the ORM object graph); the `order_by(due_date.desc())`
re-ordering of `list_student_fees` is a permutation of the result and is
omitted. -/

/-- A `student_fees` row keyed by tenant and primary key. -/
structure FeeRow where
  tenant_id : String
  id : String
  fee : StudentFee
  deriving DecidableEq, Repr

/-- The `filter_by(id=fee_id, tenant_id=tenant_id)` predicate. -/
def feeKey (t fee_id : String) (r : FeeRow) : Bool :=
  r.id == fee_id && r.tenant_id == t

/-- The `query(Payment).filter(Payment.id == payment_id,
Payment.tenant_id == tenant_id)` lookup, expressed on the bundled rows:
the tenant's fee row holding the payment. -/
def payKey (t pid : String) (r : FeeRow) : Bool :=
  r.tenant_id == t && r.fee.payments.any (fun q => q.id == pid)

/-- `get_student_fee` from `student_fee_service.py`: `None` without a
tenant context, else the first row with the given id in the ambient
tenant. -/
def get_student_fee (amb : Option String) (fee_id : String) (db : List FeeRow) :
    Option StudentFee :=
  match amb with
  | none => none
  | some t => (db.find? (feeKey t fee_id)).map (·.fee)

/-- The optional `student_id`/`fee_structure_id`/`status` filters of
`list_student_fees`, conjoined with the tenant filter. -/
def feeFilters (t : String) (student_id fee_structure_id : Option String)
    (status : Option StudentFeeStatus) (r : FeeRow) : Bool :=
  r.tenant_id == t &&
  (match student_id with | none => true | some s => r.fee.student_id == s) &&
  (match fee_structure_id with | none => true | some s => r.fee.fee_structure_id == s) &&
  (match status with | none => true | some s => r.fee.status == s)

/-- `list_student_fees` from `student_fee_service.py`: `[]` without a
tenant context, else all rows of the ambient tenant passing the optional
filters. -/
def list_student_fees (amb : Option String) (student_id fee_structure_id : Option String)
    (status : Option StudentFeeStatus) (db : List FeeRow) : List StudentFee :=
  match amb with
  | none => []
  | some t => (db.filter (feeFilters t student_id fee_structure_id status)).map (·.fee)

/-- `create_payment` from `payment_service.py` at the persistence level:
tenant check, amount and method validation, tenant-scoped row lookup
with `FOR UPDATE`, then the fee-level mutation; on any failure the
transaction leaves the table untouched. -/
def create_payment_db (amb : Option String) (today : ℤ) (pid fee_id : String)
    (amount : ℚ) (method : String) (db : List FeeRow) :
    Except String Unit × List FeeRow :=
  match amb with
  | none => (.error "Tenant context is required", db)
  | some t =>
    if amount ≤ 0 then (.error "Amount must be positive", db)
    else if ¬ paymentMethods.contains method then
      (.error ("Invalid payment method: " ++ method), db)
    else
      match db.find? (feeKey t fee_id) with
      | none => (.error "Student fee not found", db)
      | some row =>
        match create_payment today pid row.fee amount method with
        | .error e => (.error e, db)
        | .ok fee' =>
          (.ok (), updateFirst (feeKey t fee_id) (fun r => { r with fee := fee' }) db)

/-- `refund_payment` from `payment_service.py` at the persistence level:
tenant check, tenant-scoped payment lookup, then the fee-level mutation;
on any failure the table is untouched. -/
def refund_payment_db (amb : Option String) (today : ℤ) (pid : String)
    (db : List FeeRow) : Except String Unit × List FeeRow :=
  match amb with
  | none => (.error "Tenant context is required", db)
  | some t =>
    match db.find? (payKey t pid) with
    | none => (.error "Payment not found", db)
    | some row =>
      match refund_payment today pid row.fee with
      | .error e => (.error e, db)
      | .ok fee' =>
        (.ok (), updateFirst (payKey t pid) (fun r => { r with fee := fee' }) db)

/-! ### List lemmas for the isolation proofs -/

theorem find?_filter {p q : α → Bool} (l : List α) (hpq : ∀ x, p x = true → q x = true) :
    l.find? p = (l.filter q).find? p := by
  induction l with
  | nil => rfl
  | cons x xs ih =>
    by_cases hp : p x = true
    · have hq : q x = true := hpq x hp
      rw [List.find?_cons_of_pos xs hp, List.filter_cons_of_pos hq,
        List.find?_cons_of_pos _ hp]
    · by_cases hq : q x = true
      · rw [List.find?_cons_of_neg xs (by simpa using hp),
          List.filter_cons_of_pos hq,
          List.find?_cons_of_neg _ (by simpa using hp), ih]
      · rw [List.find?_cons_of_neg xs (by simpa using hp),
          List.filter_cons_of_neg (by simpa using hq), ih]

theorem updateFirst_cons {p : α → Bool} {f : α → α} (x : α) (xs : List α) :
    updateFirst p f (x :: xs) = if p x then f x :: xs else x :: updateFirst p f xs :=
  rfl

theorem filter_updateFirst_comm {p q : α → Bool} {f : α → α} (l : List α)
    (hpq : ∀ x, p x = true → q x = true) (hf : ∀ x, q (f x) = q x) :
    (updateFirst p f l).filter q = updateFirst p f (l.filter q) := by
  induction l with
  | nil => rfl
  | cons x xs ih =>
    by_cases hp : p x = true
    · have hq : q x = true := hpq x hp
      rw [updateFirst_cons, if_pos hp, List.filter_cons_of_pos (by rw [hf]; exact hq),
        List.filter_cons_of_pos hq, updateFirst_cons, if_pos hp]
    · rw [updateFirst_cons, if_neg hp]
      by_cases hq : q x = true
      · rw [List.filter_cons_of_pos hq, List.filter_cons_of_pos hq,
          updateFirst_cons, if_neg hp, ih]
      · rw [List.filter_cons_of_neg (by simpa using hq),
          List.filter_cons_of_neg (by simpa using hq), ih]

theorem filter_updateFirst_other {p q : α → Bool} {f : α → α} (l : List α)
    (hpq : ∀ x, p x = true → q x = false) (hf : ∀ x, q (f x) = q x) :
    (updateFirst p f l).filter q = l.filter q := by
  induction l with
  | nil => rfl
  | cons x xs ih =>
    by_cases hp : p x = true
    · have hq : q x = false := hpq x hp
      rw [updateFirst_cons, if_pos hp, List.filter_cons_of_neg (by rw [hf]; simp [hq]),
        List.filter_cons_of_neg (by simp [hq])]
    · rw [updateFirst_cons, if_neg hp]
      by_cases hq : q x = true
      · rw [List.filter_cons_of_pos hq, List.filter_cons_of_pos hq, ih]
      · rw [List.filter_cons_of_neg (by simpa using hq),
          List.filter_cons_of_neg (by simpa using hq), ih]

theorem updateFirst_get? {p : α → Bool} {f : α → α} (l : List α) (i : ℕ) :
    (updateFirst p f l).get? i = l.get? i ∨
    ∃ y, l.find? p = some y ∧ l.get? i = some y ∧
      (updateFirst p f l).get? i = some (f y) := by
  induction l generalizing i with
  | nil => left; rfl
  | cons x xs ih =>
    by_cases hp : p x = true
    · rw [updateFirst_cons, if_pos hp]
      cases i with
      | zero =>
        right
        exact ⟨x, List.find?_cons_of_pos xs hp, rfl, rfl⟩
      | succ i => left; rfl
    · rw [updateFirst_cons, if_neg hp]
      cases i with
      | zero => left; rfl
      | succ i =>
        rcases ih i with h | ⟨y, hy1, hy2, hy3⟩
        · left
          simpa using h
        · right
          refine ⟨y, ?_, by simpa using hy2, by simpa using hy3⟩
          rw [List.find?_cons_of_neg xs (by simpa using hp)]
          exact hy1

/-! ### Rejection atomicity (C6) -/

theorem create_payment_error_of_exceeds (today : ℤ) (pid : String) (sf : StudentFee)
    (a : ℚ) (m : String) (h : a > sf.total_amount - sf.paid_amount) :
    ∃ e, create_payment today pid sf a m = .error e := by
  unfold create_payment
  split_ifs with h1 h2
  · exact ⟨_, rfl⟩
  · exact ⟨_, rfl⟩
  · exact ⟨_, rfl⟩

theorem create_payment_db_error_frame (amb : Option String) (today : ℤ)
    (pid fid m : String) (a : ℚ) (db : List FeeRow) (e : String)
    (h : (create_payment_db amb today pid fid a m db).1 = .error e) :
    (create_payment_db amb today pid fid a m db).2 = db := by
  cases amb with
  | none => rfl
  | some t =>
    simp only [create_payment_db] at h ⊢
    by_cases ha : a ≤ 0
    · rw [if_pos ha]
    · rw [if_neg ha] at h ⊢
      by_cases hm : ¬ paymentMethods.contains m
      · rw [if_pos hm]
      · rw [if_neg hm] at h ⊢
        cases hfind : db.find? (feeKey t fid) with
        | none => simp only [hfind]
        | some row =>
          simp only [hfind] at h ⊢
          cases hcp : create_payment today pid row.fee a m with
          | error e2 => simp only [hcp]
          | ok fee' =>
            simp only [hcp] at h
            simp at h

theorem refund_payment_db_error_frame (amb : Option String) (today : ℤ)
    (pid : String) (db : List FeeRow) (e : String)
    (h : (refund_payment_db amb today pid db).1 = .error e) :
    (refund_payment_db amb today pid db).2 = db := by
  cases amb with
  | none => rfl
  | some t =>
    simp only [refund_payment_db] at h ⊢
    cases hfind : db.find? (payKey t pid) with
    | none => simp only [hfind]
    | some row =>
      simp only [hfind] at h ⊢
      cases hr : refund_payment today pid row.fee with
      | error e2 => simp only [hr]
      | ok fee' =>
        simp only [hr] at h
        simp at h

theorem feeStep_payment_status {sf sf' : StudentFee} (h : FeeStep sf sf')
    (i : ℕ) (q q' : PaymentRec) (hq : sf.payments.get? i = some q)
    (hq' : sf'.payments.get? i = some q') (hne : q'.status ≠ q.status) :
    q.status = .success ∧ q'.status = .refunded := by
  cases h with
  | pay today pid method amount sf sf' hc =>
    unfold create_payment at hc
    split_ifs at hc with h1 h2 h3
    cases hc
    have hlt : i < sf.payments.length := (List.get?_eq_some.1 hq).1
    dsimp only [recalculate_student_fee_status] at hq'
    rw [List.get?_append hlt, hq] at hq'
    cases hq'
    exact absurd rfl hne
  | refund today pid sf sf' hr =>
    unfold refund_payment at hr
    cases hfind : sf.payments.find? (fun p => p.id == pid) with
    | none => rw [hfind] at hr; cases hr
    | some payment =>
      rw [hfind] at hr
      dsimp only at hr
      split_ifs at hr with h1 h2
      cases hr
      push_neg at h2
      dsimp only [recalculate_student_fee_status] at hq'
      rcases updateFirst_get? sf.payments i with hsame | ⟨y, hy1, hy2, hy3⟩
      · rw [hsame, hq] at hq'
        cases hq'
        exact absurd rfl hne
      · rw [hfind] at hy1
        cases hy1
        rw [hq] at hy2
        cases hy2
        rw [hy3] at hq'
        cases hq'
        exact ⟨h2, rfl⟩

/-- C6: `create_payment` rejects a non-positive amount and an amount
exceeding `total - paid` for the looked-up fee; `refund_payment` rejects
a payment that is already `refunded` or whose status is not `success`;
every error outcome of either operation leaves the table — hence every
obligation, item and payment row — exactly as it was; and a refund is
the only step that changes any stored payment's status: a changed
status was `success` before and is `refunded` after. -/
theorem rejection_atomicity_spec :
    (∀ (amb : Option String) (today : ℤ) (pid fid m : String) (a : ℚ)
        (db : List FeeRow), a ≤ 0 →
      (∃ e, (create_payment_db amb today pid fid a m db).1 = .error e) ∧
      (create_payment_db amb today pid fid a m db).2 = db) ∧
    (∀ (t : String) (today : ℤ) (pid fid m : String) (a : ℚ) (db : List FeeRow)
        (row : FeeRow), db.find? (feeKey t fid) = some row →
      a > row.fee.total_amount - row.fee.paid_amount →
      (∃ e, (create_payment_db (some t) today pid fid a m db).1 = .error e) ∧
      (create_payment_db (some t) today pid fid a m db).2 = db) ∧
    (∀ (t : String) (today : ℤ) (pid : String) (db : List FeeRow) (row : FeeRow)
        (q : PaymentRec), db.find? (payKey t pid) = some row →
      row.fee.payments.find? (fun p => p.id == pid) = some q →
      q.status = .refunded →
      (refund_payment_db (some t) today pid db).1 = .error "Payment already refunded" ∧
      (refund_payment_db (some t) today pid db).2 = db) ∧
    (∀ (t : String) (today : ℤ) (pid : String) (db : List FeeRow) (row : FeeRow)
        (q : PaymentRec), db.find? (payKey t pid) = some row →
      row.fee.payments.find? (fun p => p.id == pid) = some q →
      q.status ≠ .success →
      (∃ e, (refund_payment_db (some t) today pid db).1 = .error e) ∧
      (refund_payment_db (some t) today pid db).2 = db) ∧
    (∀ (amb : Option String) (today : ℤ) (pid fid m : String) (a : ℚ)
        (db : List FeeRow) (e : String),
      (create_payment_db amb today pid fid a m db).1 = .error e →
      (create_payment_db amb today pid fid a m db).2 = db) ∧
    (∀ (amb : Option String) (today : ℤ) (pid : String) (db : List FeeRow)
        (e : String),
      (refund_payment_db amb today pid db).1 = .error e →
      (refund_payment_db amb today pid db).2 = db) ∧
    (∀ (sf sf' : StudentFee), FeeStep sf sf' →
      ∀ (i : ℕ) (q q' : PaymentRec), sf.payments.get? i = some q →
      sf'.payments.get? i = some q' → q'.status ≠ q.status →
      q.status = .success ∧ q'.status = .refunded) := by
  refine ⟨?_, ?_, ?_, ?_, ?_, ?_, ?_⟩
  · intro amb today pid fid m a db ha
    cases amb with
    | none => exact ⟨⟨_, rfl⟩, rfl⟩
    | some t =>
      simp only [create_payment_db, if_pos ha]
      refine ⟨⟨_, rfl⟩, ?_⟩
      trivial
  · intro t today pid fid m a db row hfind hgt
    by_cases ha : a ≤ 0
    · simp only [create_payment_db, if_pos ha]
      refine ⟨⟨_, rfl⟩, ?_⟩
      trivial
    · by_cases hm : ¬ paymentMethods.contains m
      · simp only [create_payment_db, if_neg ha, if_pos hm]
        refine ⟨⟨_, rfl⟩, ?_⟩
        trivial
      · obtain ⟨e, he⟩ := create_payment_error_of_exceeds today pid row.fee a m hgt
        simp only [create_payment_db, if_neg ha, if_neg hm, hfind, he]
        refine ⟨⟨_, rfl⟩, ?_⟩
        trivial
  · intro t today pid db row q hfind hqfind hstat
    have herr : refund_payment today pid row.fee = .error "Payment already refunded" := by
      simp only [refund_payment, hqfind]
      rw [if_pos hstat]
    simp only [refund_payment_db, hfind, herr]
    constructor <;> trivial
  · intro t today pid db row q hfind hqfind hstat
    have herr : ∃ e, refund_payment today pid row.fee = .error e := by
      simp only [refund_payment, hqfind]
      by_cases hr : q.status = .refunded
      · rw [if_pos hr]; exact ⟨_, rfl⟩
      · rw [if_neg hr, if_pos hstat]; exact ⟨_, rfl⟩
    obtain ⟨e, he⟩ := herr
    simp only [refund_payment_db, hfind, he]
    refine ⟨⟨_, rfl⟩, ?_⟩
    trivial
  · intro amb today pid fid m a db e h
    exact create_payment_db_error_frame amb today pid fid m a db e h
  · intro amb today pid db e h
    exact refund_payment_db_error_frame amb today pid db e h
  · intro sf sf' h i q q' hq hq' hne
    exact feeStep_payment_status h i q q' hq hq' hne

/-- C6 witness: a negative payment is rejected on the empty table, and a
refund of an already-refunded payment is rejected on a one-row table,
both leaving the table unchanged. -/
theorem rejection_atomicity_spec_witness :
    ((∃ e, (create_payment_db (some "t1") 0 "p1" "f1" (-1) "cash" []).1 = .error e) ∧
      (create_payment_db (some "t1") 0 "p1" "f1" (-1) "cash" []).2 = []) ∧
    ((refund_payment_db (some "t1") 0 "p1"
        [⟨"t1", "sf1", ⟨"s1", "fs1", 10, 5, none, .partialPaid, [⟨10, 5⟩],
          [⟨"p1", 5, "cash", .refunded⟩]⟩⟩]).1 = .error "Payment already refunded" ∧
      (refund_payment_db (some "t1") 0 "p1"
        [⟨"t1", "sf1", ⟨"s1", "fs1", 10, 5, none, .partialPaid, [⟨10, 5⟩],
          [⟨"p1", 5, "cash", .refunded⟩]⟩⟩]).2 =
        [⟨"t1", "sf1", ⟨"s1", "fs1", 10, 5, none, .partialPaid, [⟨10, 5⟩],
          [⟨"p1", 5, "cash", .refunded⟩]⟩⟩]) :=
  ⟨rejection_atomicity_spec.1 (some "t1") 0 "p1" "f1" "cash" (-1) [] (by norm_num),
    rejection_atomicity_spec.2.2.1 "t1" 0 "p1"
      [⟨"t1", "sf1", ⟨"s1", "fs1", 10, 5, none, .partialPaid, [⟨10, 5⟩],
        [⟨"p1", 5, "cash", .refunded⟩]⟩⟩]
      ⟨"t1", "sf1", ⟨"s1", "fs1", 10, 5, none, .partialPaid, [⟨10, 5⟩],
        [⟨"p1", 5, "cash", .refunded⟩]⟩⟩
      ⟨"p1", 5, "cash", .refunded⟩ (by decide) (by decide) rfl⟩

/-! ### Tenant isolation (C2) -/

theorem feeKey_tenant {t fid : String} {r : FeeRow} (h : feeKey t fid r = true) :
    (r.tenant_id == t) = true := by
  simp only [feeKey, Bool.and_eq_true] at h
  exact h.2

theorem payKey_tenant {t pid : String} {r : FeeRow} (h : payKey t pid r = true) :
    (r.tenant_id == t) = true := by
  simp only [payKey, Bool.and_eq_true] at h
  exact h.1

theorem feeFilters_tenant {t : String} {sid fsid : Option String}
    {st : Option StudentFeeStatus} {r : FeeRow}
    (h : feeFilters t sid fsid st r = true) : (r.tenant_id == t) = true := by
  simp only [feeFilters, Bool.and_eq_true] at h
  tauto

theorem filter_subpred {p q : α → Bool} (l : List α)
    (hpq : ∀ x, p x = true → q x = true) :
    l.filter p = (l.filter q).filter p := by
  induction l with
  | nil => rfl
  | cons x xs ih =>
    by_cases hp : p x = true
    · have hq : q x = true := hpq x hp
      rw [List.filter_cons_of_pos hp, List.filter_cons_of_pos hq,
        List.filter_cons_of_pos hp, ih]
    · by_cases hq : q x = true
      · rw [List.filter_cons_of_neg (by simpa using hp), List.filter_cons_of_pos hq,
          List.filter_cons_of_neg (by simpa using hp), ih]
      · rw [List.filter_cons_of_neg (by simpa using hp),
          List.filter_cons_of_neg (by simpa using hq), ih]

/-- C2: tenant isolation of the ledger operations.  Reads under ambient
tenant `t` return only rows whose `tenant_id` is `t` and their result is
unchanged if every row of any other tenant is dropped (so they are
independent of other tenants' rows, even when the primary key of a
foreign row is supplied); the mutations leave every row of every other
tenant untouched, and both their outcome and their effect on tenant
`t`'s rows are the same on the full table as on the table restricted to
tenant `t`. -/
theorem tenant_isolation_spec :
    (∀ (t fid : String) (db : List FeeRow),
      get_student_fee (some t) fid db =
        get_student_fee (some t) fid (db.filter (fun r => r.tenant_id == t))) ∧
    (∀ (t fid : String) (db : List FeeRow) (sf : StudentFee),
      get_student_fee (some t) fid db = some sf →
      ∃ r ∈ db, r.tenant_id = t ∧ r.id = fid ∧ r.fee = sf) ∧
    (∀ (t : String) (sid fsid : Option String) (st : Option StudentFeeStatus)
        (db : List FeeRow),
      list_student_fees (some t) sid fsid st db =
        list_student_fees (some t) sid fsid st
          (db.filter (fun r => r.tenant_id == t))) ∧
    (∀ (t : String) (sid fsid : Option String) (st : Option StudentFeeStatus)
        (db : List FeeRow) (fee : StudentFee),
      fee ∈ list_student_fees (some t) sid fsid st db →
      ∃ r ∈ db, r.tenant_id = t ∧ r.fee = fee) ∧
    (∀ (t : String) (today : ℤ) (pid fid m : String) (a : ℚ) (db : List FeeRow),
      (create_payment_db (some t) today pid fid a m db).2.filter
          (fun r => !(r.tenant_id == t)) =
        db.filter (fun r => !(r.tenant_id == t))) ∧
    (∀ (t : String) (today : ℤ) (pid fid m : String) (a : ℚ) (db : List FeeRow),
      (create_payment_db (some t) today pid fid a m db).1 =
        (create_payment_db (some t) today pid fid a m
          (db.filter (fun r => r.tenant_id == t))).1 ∧
      (create_payment_db (some t) today pid fid a m db).2.filter
          (fun r => r.tenant_id == t) =
        (create_payment_db (some t) today pid fid a m
          (db.filter (fun r => r.tenant_id == t))).2) ∧
    (∀ (t : String) (today : ℤ) (pid : String) (db : List FeeRow),
      (refund_payment_db (some t) today pid db).2.filter
          (fun r => !(r.tenant_id == t)) =
        db.filter (fun r => !(r.tenant_id == t))) ∧
    (∀ (t : String) (today : ℤ) (pid : String) (db : List FeeRow),
      (refund_payment_db (some t) today pid db).1 =
        (refund_payment_db (some t) today pid
          (db.filter (fun r => r.tenant_id == t))).1 ∧
      (refund_payment_db (some t) today pid db).2.filter
          (fun r => r.tenant_id == t) =
        (refund_payment_db (some t) today pid
          (db.filter (fun r => r.tenant_id == t))).2) := by
  refine ⟨?_, ?_, ?_, ?_, ?_, ?_, ?_, ?_⟩
  · intro t fid db
    simp only [get_student_fee]
    rw [find?_filter db (fun x hx => feeKey_tenant hx)]
  · intro t fid db sf h
    simp only [get_student_fee] at h
    cases hfind : db.find? (feeKey t fid) with
    | none => rw [hfind] at h; simp at h
    | some r =>
      rw [hfind] at h
      simp only [Option.map_some', Option.some.injEq] at h
      have hkey := List.find?_some hfind
      simp only [feeKey, Bool.and_eq_true, beq_iff_eq] at hkey
      exact ⟨r, List.mem_of_find?_eq_some hfind, hkey.2, hkey.1, h⟩
  · intro t sid fsid st db
    simp only [list_student_fees]
    rw [filter_subpred db (fun x hx => feeFilters_tenant hx)]
  · intro t sid fsid st db fee hmem
    simp only [list_student_fees] at hmem
    rcases List.mem_map.1 hmem with ⟨r, hr, hfee⟩
    have hr2 := List.mem_filter.1 hr
    have htid : (r.tenant_id == t) = true := feeFilters_tenant hr2.2
    exact ⟨r, hr2.1, by simpa using htid, hfee⟩
  · intro t today pid fid m a db
    by_cases ha : a ≤ 0
    · simp only [create_payment_db, if_pos ha]
    · by_cases hm : ¬ paymentMethods.contains m
      · simp only [create_payment_db, if_neg ha, if_pos hm]
      · cases hfind : db.find? (feeKey t fid) with
        | none => simp only [create_payment_db, if_neg ha, if_neg hm, hfind]
        | some row =>
          cases hcp : create_payment today pid row.fee a m with
          | error e => simp only [create_payment_db, if_neg ha, if_neg hm, hfind, hcp]
          | ok fee' =>
            simp only [create_payment_db, if_neg ha, if_neg hm, hfind, hcp]
            exact filter_updateFirst_other db
              (fun x hx => by rw [feeKey_tenant hx]; rfl) (fun x => rfl)
  · intro t today pid fid m a db
    have hfq : db.find? (feeKey t fid) =
        (db.filter (fun r => r.tenant_id == t)).find? (feeKey t fid) :=
      find?_filter db (fun x hx => feeKey_tenant hx)
    by_cases ha : a ≤ 0
    · constructor <;> simp only [create_payment_db, if_pos ha]
    · by_cases hm : ¬ paymentMethods.contains m
      · constructor <;> simp only [create_payment_db, if_neg ha, if_pos hm]
      · cases hfind : db.find? (feeKey t fid) with
        | none =>
          have hfind2 : (db.filter (fun r => r.tenant_id == t)).find? (feeKey t fid) =
              none := by rw [← hfq, hfind]
          constructor <;>
            simp only [create_payment_db, if_neg ha, if_neg hm, hfind, hfind2]
        | some row =>
          have hfind2 : (db.filter (fun r => r.tenant_id == t)).find? (feeKey t fid) =
              some row := by rw [← hfq, hfind]
          cases hcp : create_payment today pid row.fee a m with
          | error e =>
            constructor <;>
              simp only [create_payment_db, if_neg ha, if_neg hm, hfind, hfind2, hcp]
          | ok fee' =>
            constructor
            · simp only [create_payment_db, if_neg ha, if_neg hm, hfind, hfind2, hcp]
            · simp only [create_payment_db, if_neg ha, if_neg hm, hfind, hfind2, hcp]
              exact filter_updateFirst_comm db
                (fun x hx => feeKey_tenant hx) (fun x => rfl)
  · intro t today pid db
    cases hfind : db.find? (payKey t pid) with
    | none => simp only [refund_payment_db, hfind]
    | some row =>
      cases hr : refund_payment today pid row.fee with
      | error e => simp only [refund_payment_db, hfind, hr]
      | ok fee' =>
        simp only [refund_payment_db, hfind, hr]
        exact filter_updateFirst_other db
          (fun x hx => by rw [payKey_tenant hx]; rfl) (fun x => rfl)
  · intro t today pid db
    have hfq : db.find? (payKey t pid) =
        (db.filter (fun r => r.tenant_id == t)).find? (payKey t pid) :=
      find?_filter db (fun x hx => payKey_tenant hx)
    cases hfind : db.find? (payKey t pid) with
    | none =>
      have hfind2 : (db.filter (fun r => r.tenant_id == t)).find? (payKey t pid) =
          none := by rw [← hfq, hfind]
      constructor <;> simp only [refund_payment_db, hfind, hfind2]
    | some row =>
      have hfind2 : (db.filter (fun r => r.tenant_id == t)).find? (payKey t pid) =
          some row := by rw [← hfq, hfind]
      cases hr : refund_payment today pid row.fee with
      | error e => constructor <;> simp only [refund_payment_db, hfind, hfind2, hr]
      | ok fee' =>
        constructor
        · simp only [refund_payment_db, hfind, hfind2, hr]
        · simp only [refund_payment_db, hfind, hfind2, hr]
          exact filter_updateFirst_comm db
            (fun x hx => payKey_tenant hx) (fun x => rfl)

/-- C2 witness: on a one-row table, a lookup under the owning tenant
returns that row's obligation, which the isolation theorem traces back
to a row of that tenant. -/
theorem tenant_isolation_spec_witness :
    ∃ r ∈ [(⟨"t1", "f1", assign_student_fee "s" "fs" [] none⟩ : FeeRow)],
      r.tenant_id = "t1" ∧ r.id = "f1" ∧ r.fee = assign_student_fee "s" "fs" [] none :=
  tenant_isolation_spec.2.1 "t1" "f1"
    [⟨"t1", "f1", assign_student_fee "s" "fs" [] none⟩]
    (assign_student_fee "s" "fs" [] none) (by rfl)

end SchoolErp
